import Mathlib

/-!
Verification of the per-resource job scheduler of the yodl-store-webhook
service against its specification.

The definitions below are a shallow embedding of the TypeScript sources:

* `src/types/queue.ts` — enums and record types,
* `src/services/redis.service.ts` — the durable queue store
  (`lPush`/`rPop`/`lRange`, the retry sorted set, the dead-letter list and
  the small status key/value cache),
* `src/services/queue/queue.service.ts` and `src/services/queue.service.ts`
  — `calculateRetryDelay`, `handleItemFailure`, `processRetryItems` and the
  outcome of processing a popped item,
* `src/services/status.service.ts` — `getBeerTapStatus`,
  `forcePollBeerTapStatus` and `getThingsBoardStatusWithDedup` (the latter
  as an interleaving state machine whose atomic steps are the code chunks
  between `await` points),
* `src/services/queue/queue-integration.service.ts` —
  `processWebhookTransaction` and `findTransactionStatus`,
* `src/utils/tap-compatibility.ts` and
  `src/services/self/self-verification.service.ts` — the policy-equivalence
  cache.

Timestamps are modelled as natural numbers (milliseconds), JavaScript
numeric amounts (`Number(...)` of decimal strings) as rationals.
-/

/-- `QueueStatus` enum from `src/types/queue.ts` (READY=0, BUSY=1,
PROCESSING=2, ERROR=3). -/
inductive QueueStatus
  | READY
  | BUSY
  | PROCESSING
  | ERROR
deriving DecidableEq, Repr

/-- `RetryStrategy` enum from `src/types/queue.ts`. -/
inductive RetryStrategy
  | exponential
  | linear
  | constant
deriving DecidableEq, Repr

/-- `QueueConfig` from `src/types/queue.ts` (the fields the scheduler
logic reads; polling intervals are time-driven and not used by the pure
transition functions). -/
structure QueueConfig where
  maxAttempts : Nat
  retryStrategy : RetryStrategy
  baseDelay : Nat
  maxDelay : Nat
  concurrency : Nat
  deadLetterQueueEnabled : Bool
deriving DecidableEq, Repr

/-- `QueueItem<T>` from `src/types/queue.ts`.  `createdAt`/`scheduledAt`
are write-only bookkeeping for the claims below and are omitted;
`lastAttemptAt` is kept because `handleItemFailure` writes it. -/
structure QueueItem (T : Type) where
  id : String
  data : T
  attempts : Nat
  maxAttempts : Nat
  lastAttemptAt : Option Nat := none
  errors : List String
deriving DecidableEq, Repr

/-- `QueueProcessingResult` from `src/types/queue.ts` (the fields
`handleItemFailure` and `processItem` read). -/
structure QueueProcessingResult where
  success : Bool
  error : Option String := none
  shouldRetry : Bool
deriving DecidableEq, Repr

/-- `calculateRetryDelay` from `src/services/queue/queue.service.ts`
(lines 213–224):
`EXPONENTIAL ↦ min(baseDelay·2^(attempts-1), maxDelay)`,
`LINEAR ↦ min(baseDelay·attempts, maxDelay)`, `CONSTANT ↦ baseDelay`
(the `default` branch of the `switch` also returns `baseDelay`). -/
def calculateRetryDelay (config : QueueConfig) (attempts : Nat) : Nat :=
  match config.retryStrategy with
  | RetryStrategy.exponential => min (config.baseDelay * 2 ^ (attempts - 1)) config.maxDelay
  | RetryStrategy.linear => min (config.baseDelay * attempts) config.maxDelay
  | RetryStrategy.constant => config.baseDelay

/-- The queue configuration used for beer-tap queues by
`initializeBeerTapQueues` in
`src/services/queue/queue-integration.service.ts` (maxAttempts 3,
exponential strategy by default, baseDelay 5000, maxDelay 30000,
concurrency 1, dead-letter queue enabled). -/
def beerTapQueueConfig : QueueConfig :=
  { maxAttempts := 3
    retryStrategy := RetryStrategy.exponential
    baseDelay := 5000
    maxDelay := 30000
    concurrency := 1
    deadLetterQueueEnabled := true }

/-! ### Durable queue store (`src/services/redis.service.ts`)

`enqueue` serialises the item and `lPush`es it (head of the Redis list);
`dequeue` is `rPop` (tail); `peekQueue(name, count)` is
`lRange(name, -count, -1)`, i.e. the last `count` elements of the list in
list order; the retry set is a sorted set keyed by the retry timestamp;
the dead-letter list is `lPush`ed. -/

/-- `lPush`: prepend to the head of a Redis list. -/
def lPush {α : Type} (l : List α) (x : α) : List α := x :: l

/-- `rPop`: remove and return the tail element of a Redis list
(`redis.service.ts` `dequeue`, lines 88–105). -/
def rPop {α : Type} (l : List α) : Option (α × List α) :=
  match l.getLast? with
  | none => none
  | some x => some (x, l.dropLast)

/-- `lRange(name, -count, -1)`: the last `count` elements in list order
(`redis.service.ts` `peekQueue`, lines 111–122). -/
def peekQueue {α : Type} (l : List α) (count : Nat) : List α :=
  l.drop (l.length - count)

/-- The Redis list obtained by pushing the elements of `pushes` in order
onto an initially empty queue. -/
def buildQueue {α : Type} (pushes : List α) : List α :=
  pushes.foldl lPush []

/-- Insertion into a score-sorted list, used to model the Redis sorted
set's score order. -/
def insertByScore {α : Type} : List (α × Nat) → α → Nat → List (α × Nat)
  | [], x, score => [(x, score)]
  | (y, sy) :: rest, x, score =>
    if sy ≤ score then (y, sy) :: insertByScore rest x score
    else (x, score) :: (y, sy) :: rest

/-- `zAdd` on the retry sorted set (`redis.service.ts` `scheduleRetry`,
lines 124–130): the member is stored with its score (retry timestamp),
replacing any previous entry for the same member, ordered by score. -/
def zAdd {α : Type} [DecidableEq α] (retrySet : List (α × Nat)) (x : α) (score : Nat) :
    List (α × Nat) :=
  insertByScore (retrySet.filter (fun p => p.1 ≠ x)) x score

/-- `zRangeByScore(key, 0, beforeTime)` followed by parsing
(`redis.service.ts` `getRetryItems`, lines 132–151): the members whose
score is at most `now`. -/
def getRetryItems {α : Type} (retrySet : List (α × Nat)) (now : Nat) : List α :=
  (retrySet.filter (fun p => p.2 ≤ now)).map (fun p => p.1)

/-- `zRem` (`redis.service.ts` `removeRetryItem`, lines 153–156). -/
def zRem {α : Type} [DecidableEq α] (retrySet : List (α × Nat)) (x : α) : List (α × Nat) :=
  retrySet.filter (fun p => p.1 ≠ x)

/-- The per-resource durable state: the active queue list, the
delayed-retry sorted set (member with score) and the dead-letter list. -/
structure ResourceStore (T : Type) where
  queue : List (QueueItem T) := []
  retrySet : List (QueueItem T × Nat) := []
  dead : List (QueueItem T) := []
deriving DecidableEq, Repr

/-! ### Failure handling and the dispatch outcome
(`src/services/queue/queue.service.ts` lines 176–233 and
`src/services/queue.service.ts` lines 139–306). -/

/-- The mutation `handleItemFailure` applies to the item itself:
`item.attempts++`, `item.lastAttemptAt = new Date()`,
`item.errors.push(result.error || 'Unknown error')`. -/
def failItem {T : Type} (item : QueueItem T) (error : Option String) (now : Nat) :
    QueueItem T :=
  { item with
      attempts := item.attempts + 1
      lastAttemptAt := some now
      errors := item.errors ++ [error.getD "Unknown error"] }

/-- Which store write `handleItemFailure` performs for the failed item:
moved to the dead-letter list, scheduled in the retry set for `retryAt`,
or no store write at all (the item is then gone from every store). -/
inductive FailureAction
  | movedToDeadLetter
  | retryScheduled (retryAt : Nat)
  | dropped
deriving DecidableEq, Repr

/-- `handleItemFailure` (`src/services/queue/queue.service.ts` lines
176–211): increment `attempts`, record the error; if
`attempts >= maxAttempts` move to dead letter — but only when
`config.deadLetterQueueEnabled` — else if `result.shouldRetry` schedule a
retry after `calculateRetryDelay(attempts)`; in the remaining cases the
item is written nowhere. -/
def handleItemFailure {T : Type} (config : QueueConfig) (item : QueueItem T)
    (result : QueueProcessingResult) (now : Nat) : QueueItem T × FailureAction :=
  let item := failItem item result.error now
  if item.maxAttempts ≤ item.attempts then
    if config.deadLetterQueueEnabled then (item, FailureAction.movedToDeadLetter)
    else (item, FailureAction.dropped)
  else if result.shouldRetry then
    (item, FailureAction.retryScheduled (now + calculateRetryDelay config item.attempts))
  else (item, FailureAction.dropped)

/-- Apply the store write chosen by `handleItemFailure`:
`redis.moveToDeadLetter` is an `lPush` on the `:dead` list,
`redis.scheduleRetry` is a `zAdd` on the `:retry` sorted set. -/
def applyItemFailure {T : Type} [DecidableEq T] (rs : ResourceStore T)
    (item : QueueItem T) (act : FailureAction) : ResourceStore T :=
  match act with
  | FailureAction.movedToDeadLetter => { rs with dead := lPush rs.dead item }
  | FailureAction.retryScheduled retryAt => { rs with retrySet := zAdd rs.retrySet item retryAt }
  | FailureAction.dropped => rs

/-- The outcome of processing one popped item. -/
inductive ProcessOutcome
  | completed
  | retried
  | deadLettered
  | dropped
deriving DecidableEq, Repr

/-- `processItem` (`src/services/queue.service.ts` lines 139–187) after
the item has been popped: on handler success `handleItemSuccess` runs
(events and metrics only — the item is done and stored nowhere); on
handler failure `handleItemFailure` runs and performs its store write. -/
def processPoppedItem {T : Type} [DecidableEq T] (config : QueueConfig)
    (rs : ResourceStore T) (item : QueueItem T) (result : QueueProcessingResult)
    (now : Nat) : ResourceStore T × ProcessOutcome :=
  if result.success then (rs, ProcessOutcome.completed)
  else
    let fa := handleItemFailure config item result now
    (applyItemFailure rs fa.1 fa.2,
      match fa.2 with
      | FailureAction.movedToDeadLetter => ProcessOutcome.deadLettered
      | FailureAction.retryScheduled _ => ProcessOutcome.retried
      | FailureAction.dropped => ProcessOutcome.dropped)

/-- `processRetryItems` (`src/services/queue/queue.service.ts` lines
226–233): every due retry item (`getRetryItems`, score ≤ now) is removed
from the retry set and `enqueue`d (an `lPush`) back onto the active
queue, in the order the sweep returns them. -/
def processRetryItems {T : Type} [DecidableEq T] (rs : ResourceStore T) (now : Nat) :
    ResourceStore T :=
  (getRetryItems rs.retrySet now).foldl
    (fun st item =>
      { st with retrySet := zRem st.retrySet item, queue := lPush st.queue item })
    rs

/-- Invariant of the retry set: every scheduled member still has retry
budget left. `handleItemFailure` only ever schedules such members. -/
def RetrySetBounded {T : Type} (rs : ResourceStore T) : Prop :=
  ∀ p ∈ rs.retrySet, p.1.attempts < p.1.maxAttempts

/-! ### Status manager (`src/services/status.service.ts`)

The Redis status cache is a key/value store from string keys to
`QueueStatus` values (`redis.setStatus`/`redis.getStatus`); expiry is a
TTL on the key, so a live cache is modelled by the key being present. -/

/-- A key/value view of the Redis status cache. -/
abbrev StatusCache : Type := List (String × QueueStatus)

/-- `redis.get`-style lookup in a key/value store. -/
def kvGet {β : Type} (cache : List (String × β)) (key : String) : Option β :=
  cache.lookup key

/-- `redis.set`-style write: overwrite the key. -/
def kvSet {β : Type} (cache : List (String × β)) (key : String) (value : β) :
    List (String × β) :=
  (key, value) :: cache.filter (fun p => p.1 ≠ key)

/-- `redis.del`-style removal of a key. -/
def kvDel {β : Type} (cache : List (String × β)) (key : String) : List (String × β) :=
  cache.filter (fun p => p.1 ≠ key)

/-- The cache key of a beer tap's readiness state
(`status.service.ts`, `const cacheKey = ...`). -/
def statusCacheKey (beerTapId : String) : String :=
  "status:" ++ beerTapId

/-- `getBeerTapStatus` (`status.service.ts` lines 130–140): return the
cached status when present; on a cache miss return `READY` as a default
("will be updated by next poll"). -/
def getBeerTapStatus (cache : StatusCache) (beerTapId : String) : QueueStatus :=
  match kvGet cache (statusCacheKey beerTapId) with
  | some cachedStatus => cachedStatus
  | none => QueueStatus.READY

/-- `updateBeerTapStatus` (`status.service.ts` lines 142–165): write the
new status into the cache (TTL 30s); the status-change event it may emit
does not alter the cache. -/
def updateBeerTapStatus (cache : StatusCache) (beerTapId : String)
    (newStatus : QueueStatus) : StatusCache :=
  kvSet cache (statusCacheKey beerTapId) newStatus

/-- The value `getThingsBoardStatusWithDedup` resolves with
(`ThingsBoardStatusResponse`): a status, a success flag, and the error
message of a failed upstream read. -/
structure TBStatusResponse where
  status : QueueStatus
  success : Bool
  error : Option String := none
deriving DecidableEq, Repr

/-- `forcePollBeerTapStatus` (`status.service.ts` lines 284–294), as a
function of the response the deduplicated read resolved with: on success
cache the status and return it; on failure cache `ERROR` via
`updateBeerTapStatus` and throw. -/
def forcePollBeerTapStatus (cache : StatusCache) (beerTapId : String)
    (statusResponse : TBStatusResponse) : StatusCache × Except String QueueStatus :=
  if statusResponse.success then
    (updateBeerTapStatus cache beerTapId statusResponse.status,
      Except.ok statusResponse.status)
  else
    (updateBeerTapStatus cache beerTapId QueueStatus.ERROR,
      Except.error ("Failed to read status: " ++ statusResponse.error.getD "Unknown error"))

/-! ### The deduplicated status read as an interleaving machine
(`getThingsBoardStatusWithDedup`, `status.service.ts` lines 64–128).

Two concurrent calls for the same beer tap (hence the same controller
`deviceId:serverUrl` request key and the same cache key) are modelled as
caller `A` and caller `B`.  Each atomic step is a synchronous chunk of
the method between `await` points:

* `readCache c` — `await this.redis.getStatus(cacheKey)` returns: with a
  cached value the call finishes with it, else it proceeds;
* `dedupCheck c` — the synchronous block that consults
  `pendingStatusRequests` and either adopts the registered promise or
  issues the upstream `readBeerTapStatus` call (one upstream call per
  promise created) and registers it;
* `settle pid r` — the upstream request behind promise `pid` settles
  (the `.then`/`.catch` wrapper makes every settlement a resolution:
  `ok` carries the read status, `fail` the error message);
* `resume c` — a caller awaiting a settled promise continues: a creator
  first writes the cache on success (`await redis.setStatus`, one step),
  then removes the pending entry in `finally` and returns; on failure it
  removes the entry and returns without caching; a joiner just returns
  the settled value. -/

/-- Result an upstream promise settles with. -/
inductive UpstreamResult
  | ok (s : QueueStatus)
  | fail (msg : String)
deriving DecidableEq, Repr

/-- What a finished call returned and where it came from. -/
inductive DedupOutcome
  | fromCache (s : QueueStatus)
  | fromCall (pid : Nat) (r : UpstreamResult)
deriving DecidableEq, Repr

/-- Program counter of one caller inside
`getThingsBoardStatusWithDedup`. -/
inductive DedupPhase
  | start
  | missed
  | waitCreator (pid : Nat)
  | cleanupCreator (pid : Nat) (s : QueueStatus)
  | waitJoiner (pid : Nat)
  | finished (r : DedupOutcome)
deriving DecidableEq, Repr

/-- The two concurrent callers of the scenario. -/
inductive DedupCaller
  | A
  | B
deriving DecidableEq, Repr

/-- Global state: the status cache entry for the tap, the
`pendingStatusRequests` entry for the controller key, the number of
upstream `readBeerTapStatus` calls issued (= promises created), the
settled promises, the two callers' phases, and ghost flags recording
which caller created a promise. -/
structure DedupState where
  cache : Option QueueStatus
  pending : Option Nat
  nextPid : Nat
  upstreamCalls : Nat
  settled : List (Nat × UpstreamResult)
  phase : DedupCaller → DedupPhase
  created : DedupCaller → Bool

/-- Replace a caller's phase. -/
def DedupState.setPhase (s : DedupState) (c : DedupCaller) (p : DedupPhase) : DedupState :=
  { s with phase := Function.update s.phase c p }

/-- Set a caller's ghost creation flag. -/
def DedupState.setCreated (s : DedupState) (c : DedupCaller) : DedupState :=
  { s with created := Function.update s.created c true }

/-- Step labels of the interleaving machine. -/
inductive DedupLabel
  | readCache (c : DedupCaller)
  | dedupCheck (c : DedupCaller)
  | settle (pid : Nat) (r : UpstreamResult)
  | resume (c : DedupCaller)
deriving DecidableEq, Repr

/-- One atomic step; a label whose guard is not enabled leaves the state
unchanged. -/
def dedupStep (s : DedupState) (l : DedupLabel) : DedupState :=
  match l with
  | DedupLabel.readCache c =>
    match s.phase c with
    | DedupPhase.start =>
      match s.cache with
      | some v => s.setPhase c (DedupPhase.finished (DedupOutcome.fromCache v))
      | none => s.setPhase c DedupPhase.missed
    | _ => s
  | DedupLabel.dedupCheck c =>
    match s.phase c with
    | DedupPhase.missed =>
      match s.pending with
      | some pid => s.setPhase c (DedupPhase.waitJoiner pid)
      | none =>
        { (s.setPhase c (DedupPhase.waitCreator s.nextPid)).setCreated c with
            pending := some s.nextPid
            nextPid := s.nextPid + 1
            upstreamCalls := s.upstreamCalls + 1 }
    | _ => s
  | DedupLabel.settle pid r =>
    if pid < s.nextPid ∧ (s.settled.lookup pid).isNone then
      { s with settled := (pid, r) :: s.settled }
    else s
  | DedupLabel.resume c =>
    match s.phase c with
    | DedupPhase.waitCreator pid =>
      match s.settled.lookup pid with
      | some (UpstreamResult.ok v) =>
        { s.setPhase c (DedupPhase.cleanupCreator pid v) with cache := some v }
      | some (UpstreamResult.fail msg) =>
        { s.setPhase c (DedupPhase.finished
            (DedupOutcome.fromCall pid (UpstreamResult.fail msg))) with pending := none }
      | none => s
    | DedupPhase.cleanupCreator pid v =>
      { s.setPhase c (DedupPhase.finished
          (DedupOutcome.fromCall pid (UpstreamResult.ok v))) with pending := none }
    | DedupPhase.waitJoiner pid =>
      match s.settled.lookup pid with
      | some r => s.setPhase c (DedupPhase.finished (DedupOutcome.fromCall pid r))
      | none => s
    | _ => s

/-- Run a sequence of steps. -/
def dedupRun (s : DedupState) : List DedupLabel → DedupState
  | [] => s
  | l :: ls => dedupRun (dedupStep s l) ls

/-- Initial state of the C3 scenario: empty cache, no pending request,
both callers about to execute their cache read. -/
def dedupInit : DedupState :=
  { cache := none
    pending := none
    nextPid := 0
    upstreamCalls := 0
    settled := []
    phase := fun _ => DedupPhase.start
    created := fun _ => false }

/-- The interleaving refuting C3 as stated: caller B's cache read happens
before caller A's request settles (B "starts before the first resolves",
on an empty cache that stays empty), but A's request fails and is cleaned
up before B's dedup-map check, so B issues a second upstream call. -/
def dedupRaceTrace : List DedupLabel :=
  [DedupLabel.readCache DedupCaller.A,
   DedupLabel.dedupCheck DedupCaller.A,
   DedupLabel.readCache DedupCaller.B,
   DedupLabel.settle 0 (UpstreamResult.fail "ECONNRESET"),
   DedupLabel.resume DedupCaller.A,
   DedupLabel.dedupCheck DedupCaller.B,
   DedupLabel.settle 1 (UpstreamResult.fail "ECONNRESET"),
   DedupLabel.resume DedupCaller.B]

/-- A promise that has been created but has not settled yet: an upstream
readiness read in flight. -/
def InFlight (s : DedupState) (pid : Nat) : Prop :=
  pid < s.nextPid ∧ s.settled.lookup pid = none

/-- Every settle in the trace is a failure (the upstream controller read
keeps failing). -/
def AllSettlesFail : List DedupLabel → Prop
  | [] => True
  | DedupLabel.settle _ (UpstreamResult.ok _) :: _ => False
  | _ :: ls => AllSettlesFail ls

/-- A caller currently owning the pending entry (it created the promise
and has not yet removed it in its `finally`). -/
def IsCreatorPhase : DedupPhase → Prop
  | DedupPhase.waitCreator _ => True
  | DedupPhase.cleanupCreator _ _ => True
  | _ => False

/-- Inductive invariant of the deduplication machine. -/
structure DedupInv (s : DedupState) : Prop where
  calls_eq : s.upstreamCalls = s.nextPid
  calls_created : s.upstreamCalls =
    (cond (s.created DedupCaller.A) 1 0) + (cond (s.created DedupCaller.B) 1 0)
  settled_lt : ∀ p r, (p, r) ∈ s.settled → p < s.nextPid
  pending_lt : ∀ p, s.pending = some p → p < s.nextPid
  unsettled_pending : ∀ p, p < s.nextPid → s.settled.lookup p = none → s.pending = some p
  prov : ∀ c pid r, s.phase c = DedupPhase.finished (DedupOutcome.fromCall pid r) →
    s.settled.lookup pid = some r
  cleanup_ok : ∀ c pid v, s.phase c = DedupPhase.cleanupCreator pid v →
    s.settled.lookup pid = some (UpstreamResult.ok v)
  creator_pending : ∀ c pid, s.phase c = DedupPhase.waitCreator pid → s.pending = some pid
  cleanup_pending : ∀ c pid v, s.phase c = DedupPhase.cleanupCreator pid v →
    s.pending = some pid
  waitJ_lt : ∀ c pid, s.phase c = DedupPhase.waitJoiner pid → pid < s.nextPid
  joiner_not_created : ∀ c pid, s.phase c = DedupPhase.waitJoiner pid → s.created c = false
  early_not_created : ∀ c, (s.phase c = DedupPhase.start ∨ s.phase c = DedupPhase.missed) →
    s.created c = false
  creators_exclusive :
    ¬(IsCreatorPhase (s.phase DedupCaller.A) ∧ IsCreatorPhase (s.phase DedupCaller.B))

/-! ### Concrete inputs used by counterexamples and witnesses. -/

/-- The beer-tap queue configuration with the dead-letter queue disabled
(`deadLetterQueueEnabled: false` is a legal `QueueConfig`; the
`QueueService` constructor accepts it). -/
def noDlqConfig : QueueConfig :=
  { beerTapQueueConfig with deadLetterQueueEnabled := false }

/-- A task on its last permitted attempt (2 of 3 attempts used). -/
def lastAttemptItem : QueueItem Unit :=
  { id := "task-1", data := (), attempts := 2, maxAttempts := 3, errors := [] }

/-- A handler failure that asks for a retry. -/
def retryableFailure : QueueProcessingResult :=
  { success := false, error := some "timeout", shouldRetry := true }

/-- A fresh task (no attempts used yet). -/
def freshItem : QueueItem Unit :=
  { id := "task-2", data := (), attempts := 0, maxAttempts := 3, errors := [] }

/-- A handler failure marked non-retryable (`shouldRetry: false`). -/
def nonRetryableFailure : QueueProcessingResult :=
  { success := false, error := some "fatal", shouldRetry := false }

/-- Two distinguishable tasks for queue-order counterexamples. -/
def taskOne : QueueItem Unit :=
  { id := "t1", data := (), attempts := 0, maxAttempts := 3, errors := [] }

/-- Second task, pushed after `taskOne`. -/
def taskTwo : QueueItem Unit :=
  { id := "t2", data := (), attempts := 0, maxAttempts := 3, errors := [] }

/-- An interleaving in which caller B's dedup-map check happens while
caller A's request is registered: B joins A's promise. -/
def dedupJoinTrace : List DedupLabel :=
  [DedupLabel.readCache DedupCaller.A,
   DedupLabel.dedupCheck DedupCaller.A,
   DedupLabel.readCache DedupCaller.B,
   DedupLabel.dedupCheck DedupCaller.B]

/-- States whose settled promises are all failures and whose status cache
is still empty. -/
def FailOnly (s : DedupState) : Prop :=
  s.cache = none ∧ ∀ p r, (p, r) ∈ s.settled → ∃ m, r = UpstreamResult.fail m

/-- The response shape produced by the `.catch` wrapper when the upstream
read fails (`status: ERROR, success: false`). -/
def failedPollResponse : TBStatusResponse :=
  { status := QueueStatus.ERROR, success := false, error := some "Request timeout" }

/-- A cache holding a BUSY entry for tap-1, for the C5 witness. -/
def busyCache : StatusCache :=
  [(statusCacheKey "tap-1", QueueStatus.BUSY)]

/-! ### Orchestrator (`src/services/queue/queue-integration.service.ts`)

`processWebhookTransaction` (lines 361–391) matches the payment against
the configured taps with `Array.find` — first match in declaration
order — and enqueues a task on the matched tap's queue;
`findTransactionStatus` (lines 297–359) scans a completed-marker key,
each tap's active queue, its due retry entries and its dead-letter list.
JavaScript `Number(...)` amounts are modelled as rationals. -/

/-- The matching fields of the `BeerTapConfig` interface (the controller
fields are not read by the matcher). -/
structure BeerTapMatchConfig where
  id : String
  transactionReceiverEns : String
  transactionMemo : String
  transactionCurrency : String
  transactionAmount : ℚ
deriving DecidableEq, Repr

/-- The `Payment` fields read by `processWebhookTransaction`
(`src/types/transaction.ts`). -/
structure Payment where
  txHash : String
  receiverEnsPrimaryName : String
  memo : String
  invoiceCurrency : String
  invoiceAmount : ℚ
deriving DecidableEq, Repr

/-- `BeerTapQueueItem` from `src/types/queue.ts` (the task payload;
`timestamp` is write-only bookkeeping and omitted). -/
structure BeerTapQueueItem where
  transactionHash : String
  beerTapId : String
  receiverEns : String
  memo : String
  currency : String
  amount : ℚ
deriving DecidableEq, Repr

/-- The `Array.find` predicate of `processWebhookTransaction`:
receiver ENS, memo and currency must be equal and
`Number(transaction.invoiceAmount) >= Number(config.transactionAmount)`. -/
def matchesConfig (config : BeerTapMatchConfig) (transaction : Payment) : Bool :=
  config.transactionReceiverEns == transaction.receiverEnsPrimaryName &&
  config.transactionMemo == transaction.memo &&
  config.transactionCurrency == transaction.invoiceCurrency &&
  decide (config.transactionAmount ≤ transaction.invoiceAmount)

/-- The task `processWebhookTransaction` builds for the matched tap. -/
def webhookTask (transaction : Payment) (matchingConfig : BeerTapMatchConfig) :
    BeerTapQueueItem :=
  { transactionHash := transaction.txHash
    beerTapId := matchingConfig.id
    receiverEns := transaction.receiverEnsPrimaryName
    memo := transaction.memo
    currency := transaction.invoiceCurrency
    amount := transaction.invoiceAmount }

/-- The queue item `enqueueBeerTapTask`/`enqueue` constructs:
`attempts: 0`, `maxAttempts: 3`, fresh id, empty error list. -/
def newQueueItem (newId : String) (beerTapId : String) (task : BeerTapQueueItem) :
    QueueItem BeerTapQueueItem :=
  { id := newId
    data := { task with beerTapId := beerTapId }
    attempts := 0
    maxAttempts := 3
    errors := [] }

/-- The orchestrator's state: the configured taps in declaration order,
each tap's durable store keyed by tap id, and the
`completed:{txHash}` marker keys present in Redis. -/
structure IntegrationState where
  configs : List BeerTapMatchConfig
  stores : List (String × ResourceStore BeerTapQueueItem)
  completedMarkers : List String
deriving DecidableEq, Repr

/-- Push an item onto the store of the named tap. -/
def storesEnqueue (stores : List (String × ResourceStore BeerTapQueueItem))
    (beerTapId : String) (item : QueueItem BeerTapQueueItem) :
    List (String × ResourceStore BeerTapQueueItem) :=
  stores.map (fun p =>
    if p.1 = beerTapId then (p.1, { p.2 with queue := lPush p.2.queue item }) else p)

/-- Replace the store of the named tap. -/
def storesUpdate (stores : List (String × ResourceStore BeerTapQueueItem))
    (beerTapId : String) (rs : ResourceStore BeerTapQueueItem) :
    List (String × ResourceStore BeerTapQueueItem) :=
  stores.map (fun p => if p.1 = beerTapId then (p.1, rs) else p)

/-- `processWebhookTransaction` (lines 361–391): find the first matching
config in declaration order; on no match return without any effect; on a
match enqueue the task (with a fresh item id) on that tap's queue and
report the item id. -/
def processWebhookTransaction (st : IntegrationState) (transaction : Payment)
    (newId : String) : IntegrationState × Option String :=
  match st.configs.find? (fun config => matchesConfig config transaction) with
  | none => (st, none)
  | some matchingConfig =>
    let task := webhookTask transaction matchingConfig
    ({ st with
        stores := storesEnqueue st.stores matchingConfig.id
          (newQueueItem newId matchingConfig.id task) },
      some newId)

/-- The `for` loop of `findTransactionStatus` over the peeked queue
items: index of the first item whose payload carries the transaction
hash. -/
def findTxIdx (items : List (QueueItem BeerTapQueueItem)) (txHash : String) : Option Nat :=
  match items with
  | [] => none
  | it :: rest =>
    if it.data.transactionHash = txHash then some 0
    else (findTxIdx rest txHash).map (fun i => i + 1)

/-- The status kinds `findTransactionStatus` can report. -/
inductive TxStatusKind
  | not_found
  | queued
  | processing
  | completed
  | failed
deriving DecidableEq, Repr

/-- The result record of `findTransactionStatus`. -/
structure TxStatusResult where
  status : TxStatusKind
  queuePosition : Option Nat := none
  beerTapId : Option String := none
deriving DecidableEq, Repr

/-- The per-tap scan of `findTransactionStatus`: the active queue is
peeked whole (`peekQueue(name, queueLength)`) and scanned for the hash
(1-based position); then the DUE retry entries
(`getRetryItems`, default `beforeTime = Date.now()`); then the last 100
entries of the dead-letter list (`peekQueue(name + ":dead", 100)`). -/
def findInStores (stores : List (String × ResourceStore BeerTapQueueItem))
    (txHash : String) (now : Nat) : Option TxStatusResult :=
  match stores with
  | [] => none
  | (beerTapId, rs) :: rest =>
    match findTxIdx (peekQueue rs.queue rs.queue.length) txHash with
    | some i =>
      some { status := TxStatusKind.queued, queuePosition := some (i + 1),
             beerTapId := some beerTapId }
    | none =>
      if (getRetryItems rs.retrySet now).any (fun it => it.data.transactionHash == txHash) then
        some { status := TxStatusKind.queued, beerTapId := some beerTapId }
      else if (peekQueue rs.dead 100).any (fun it => it.data.transactionHash == txHash) then
        some { status := TxStatusKind.failed, beerTapId := some beerTapId }
      else findInStores rest txHash now

/-- `findTransactionStatus` (lines 297–359): a `completed:{txHash}`
marker short-circuits to `completed`; otherwise the per-tap scan; else
`not_found`. -/
def findTransactionStatus (st : IntegrationState) (txHash : String) (now : Nat) :
    TxStatusResult :=
  if txHash ∈ st.completedMarkers then { status := TxStatusKind.completed }
  else
    match findInStores st.stores txHash now with
    | some result => result
    | none => { status := TxStatusKind.not_found }

/-- One successful dispatch of the oldest queued task of a tap: the item
is popped (`rPop`), the handler succeeds, and `processItem` completes it
(no store write, no `completed:` marker write anywhere in the
repository). -/
def dispatchSuccess (st : IntegrationState) (beerTapId : String) : IntegrationState :=
  match st.stores.lookup beerTapId with
  | none => st
  | some rs =>
    match rPop rs.queue with
    | none => st
    | some (item, rest) =>
      let afterPop := { rs with queue := rest }
      let afterProcess :=
        (processPoppedItem beerTapQueueConfig afterPop item
          { success := true, shouldRetry := false } 0).1
      { st with stores := storesUpdate st.stores beerTapId afterProcess }

/-- The configured tap of the §8 scenario: requires receiver, memo
`Chopp-tap1`, currency BRL and amount at least 20. -/
def choppTapConfig : BeerTapMatchConfig :=
  { id := "tap1"
    transactionReceiverEns := "bar.eth"
    transactionMemo := "Chopp-tap1"
    transactionCurrency := "BRL"
    transactionAmount := 20 }

/-- The §8 scenario payment: amount 25 BRL, memo `Chopp-tap1`,
correlation id `tx1`. -/
def choppPayment : Payment :=
  { txHash := "tx1"
    receiverEnsPrimaryName := "bar.eth"
    memo := "Chopp-tap1"
    invoiceCurrency := "BRL"
    invoiceAmount := 25 }

/-- The orchestrator state with the scenario tap configured and an empty
store. -/
def initialTapState : IntegrationState :=
  { configs := [choppTapConfig]
    stores := [("tap1", {})]
    completedMarkers := [] }

/-- The state after the scenario payment has been matched and enqueued. -/
def afterEnqueueState : IntegrationState :=
  (processWebhookTransaction initialTapState choppPayment "item-1").1

/-! ### Policy-equivalence cache (`src/utils/tap-compatibility.ts` and
`src/services/self/self-verification.service.ts`). -/

/-- The `identityVerification` object of a beer-tap configuration
(`src/config/index.ts`); country codes are strings. -/
structure IdentityVerificationConfig where
  enabled : Bool
  minimumAge : Nat
  excludedCountries : List String
  ofacCheck : Bool
  requireNationality : Bool
  allowedNationalities : List String
  sessionTimeout : Nat
deriving DecidableEq, Repr

/-- A beer tap as seen by the compatibility helpers: its id and its
optional identity-verification policy. -/
structure BeerTap where
  id : String
  identityVerification : Option IdentityVerificationConfig
deriving DecidableEq, Repr

/-- JavaScript truthiness of `config?.enabled` (undefined counts as
disabled). -/
def optEnabled : Option IdentityVerificationConfig → Bool
  | none => false
  | some config => config.enabled

/-- `arraysEqual` (`tap-compatibility.ts` lines 209–218): equal length
and element-wise equal after sorting both arrays. -/
def arraysEqual (arr1 arr2 : List String) : Bool :=
  if arr1.length ≠ arr2.length then false
  else List.insertionSort (fun a b => a ≤ b) arr1 ==
    List.insertionSort (fun a b => a ≤ b) arr2

/-- `areIdentityConfigsCompatible` (`tap-compatibility.ts` lines
177–204): both disabled — compatible; exactly one enabled —
incompatible; both enabled — every field equal with the two list fields
compared by `arraysEqual`. -/
def areIdentityConfigsCompatible
    (config1 config2 : Option IdentityVerificationConfig) : Bool :=
  if !(optEnabled config1) && !(optEnabled config2) then true
  else if optEnabled config1 != optEnabled config2 then false
  else
    match config1, config2 with
    | some c1, some c2 =>
      (c1.minimumAge == c2.minimumAge) &&
      (c1.ofacCheck == c2.ofacCheck) &&
      (c1.requireNationality == c2.requireNationality) &&
      arraysEqual c1.excludedCountries c2.excludedCountries &&
      arraysEqual c1.allowedNationalities c2.allowedNationalities &&
      (c1.sessionTimeout == c2.sessionTimeout)
    | _, _ => false

/-- `findCompatibleTaps` (`tap-compatibility.ts` lines 226–241): the taps
compatible with the target, excluding the target itself; an unknown tap
id yields the empty list. -/
def findCompatibleTaps (beerTaps : List BeerTap) (tapId : String) : List BeerTap :=
  match beerTaps.find? (fun tap => tap.id == tapId) with
  | none => []
  | some targetTap =>
    beerTaps.filter (fun tap =>
      if tap.id == tapId then false
      else areIdentityConfigsCompatible targetTap.identityVerification
        tap.identityVerification)

/-- `getVerificationGroup` (`tap-compatibility.ts` lines 250–260): all
taps compatible with the target, the target included. -/
def getVerificationGroup (beerTaps : List BeerTap) (tapId : String) : List BeerTap :=
  match beerTaps.find? (fun tap => tap.id == tapId) with
  | none => []
  | some targetTap =>
    beerTaps.filter (fun tap =>
      areIdentityConfigsCompatible targetTap.identityVerification
        tap.identityVerification)

/-- The cached verification entry
(`self-verification.service.ts` `VerificationResult`; the proof fields
are opaque to the cache-sharing logic and omitted). -/
structure VerificationResult where
  userIdentifier : String
  verifiedAt : Nat
  expiresAt : Nat
deriving DecidableEq, Repr

/-- The verification cache: Redis keys to entries, expiry modelled by
`expiresAt` inside the entry (the `setex` TTL is derived from it). -/
abbrev VerificationCache : Type := List (String × VerificationResult)

/-- `getVerificationCacheKey` (`self-verification.service.ts` lines
303–305). -/
def getVerificationCacheKey (walletAddress tapId : String) : String :=
  "self:verification:" ++ walletAddress ++ ":" ++ tapId

/-- `getCachedVerificationResult` (lines 278–294). -/
def getCachedVerificationResult (cache : VerificationCache)
    (walletAddress tapId : String) : Option VerificationResult :=
  kvGet cache (getVerificationCacheKey walletAddress tapId)

/-- `cacheVerificationResult` (lines 243–252): `setex` under the tap's
key. -/
def cacheVerificationResult (cache : VerificationCache)
    (walletAddress tapId : String) (result : VerificationResult) : VerificationCache :=
  kvSet cache (getVerificationCacheKey walletAddress tapId) result

/-- `cacheVerificationResultForCompatibleTaps` (lines 261–269): write the
entry for every member of the verification group. -/
def cacheVerificationResultForCompatibleTaps (beerTaps : List BeerTap)
    (cache : VerificationCache) (walletAddress tapId : String)
    (result : VerificationResult) : VerificationCache :=
  (getVerificationGroup beerTaps tapId).foldl
    (fun kv tap => cacheVerificationResult kv walletAddress tap.id result) cache

/-- `removeVerificationResult` (lines 219–222). -/
def removeVerificationResult (cache : VerificationCache)
    (walletAddress tapId : String) : VerificationCache :=
  kvDel cache (getVerificationCacheKey walletAddress tapId)

/-- `removeVerificationResultForCompatibleTaps` (lines 230–234). -/
def removeVerificationResultForCompatibleTaps (beerTaps : List BeerTap)
    (cache : VerificationCache) (walletAddress tapId : String) : VerificationCache :=
  (getVerificationGroup beerTaps tapId).foldl
    (fun kv tap => removeVerificationResult kv walletAddress tap.id) cache

/-- `getVerificationStatus` (lines 133–180): check the queried tap's
entry first; on a miss scan the compatible taps in declaration order and
take the first cached entry; no entry — unverified; an expired entry —
remove the verification for the whole group and report unverified; an
unexpired entry — verified with that entry.  Returns (possibly updated
cache, isVerified, entry). -/
def getVerificationStatus (beerTaps : List BeerTap) (cache : VerificationCache)
    (walletAddress tapId : String) (now : Nat) :
    VerificationCache × Bool × Option VerificationResult :=
  let cachedResult :=
    match getCachedVerificationResult cache walletAddress tapId with
    | some r => some r
    | none =>
      (findCompatibleTaps beerTaps tapId).findSome?
        (fun (tap : BeerTap) => getCachedVerificationResult cache walletAddress tap.id)
  match cachedResult with
  | none => (cache, false, none)
  | some r =>
    if r.expiresAt < now then
      (removeVerificationResultForCompatibleTaps beerTaps cache walletAddress tapId,
        false, none)
    else (cache, true, some r)

/-- A disabled policy with minimum age 18. -/
def disabledPolicyA : Option IdentityVerificationConfig :=
  some { enabled := false, minimumAge := 18, excludedCountries := [],
         ofacCheck := false, requireNationality := false, allowedNationalities := [],
         sessionTimeout := 1800 }

/-- A disabled policy with a different minimum age and session timeout. -/
def disabledPolicyB : Option IdentityVerificationConfig :=
  some { enabled := false, minimumAge := 21, excludedCountries := [],
         ofacCheck := false, requireNationality := false, allowedNationalities := [],
         sessionTimeout := 900 }

/-- An enabled verification policy (no country lists, so it evaluates by
kernel reduction). -/
def enabledPolicy : IdentityVerificationConfig :=
  { enabled := true, minimumAge := 18, excludedCountries := [],
    ofacCheck := true, requireNationality := false, allowedNationalities := [],
    sessionTimeout := 1800 }

/-- Two taps sharing the byte-identical enabled policy. -/
def twinTaps : List BeerTap :=
  [{ id := "tapA", identityVerification := some enabledPolicy },
   { id := "tapB", identityVerification := some enabledPolicy }]

/-- A verification entry for the twin-taps witness. -/
def twinResult : VerificationResult :=
  { userIdentifier := "0xSubject", verifiedAt := 1000, expiresAt := 1801000 }

-- ========================== THEOREMS ==========================

/-! ### Helper lemmas about the store primitives. -/

theorem foldl_lPush_eq {α : Type} (l acc : List α) :
    l.foldl lPush acc = l.reverse ++ acc := by
  induction l generalizing acc with
  | nil => simp
  | cons x xs ih => simp [List.foldl, lPush, ih]

theorem buildQueue_eq_reverse {α : Type} (pushes : List α) :
    buildQueue pushes = pushes.reverse := by
  simp [buildQueue, foldl_lPush_eq]

theorem mem_insertByScore {α : Type} (l : List (α × Nat)) (x : α) (score : Nat)
    (p : α × Nat) (hp : p ∈ insertByScore l x score) : p ∈ l ∨ p = (x, score) := by
  induction l with
  | nil => simpa [insertByScore, eq_comm] using hp
  | cons y rest ih =>
    rw [insertByScore] at hp
    by_cases hle : y.2 ≤ score
    · simp only [hle, if_pos] at hp
      rcases List.mem_cons.mp hp with h | h
      · exact Or.inl (List.mem_cons.mpr (Or.inl h))
      · rcases ih h with h' | h'
        · exact Or.inl (List.mem_cons.mpr (Or.inr h'))
        · exact Or.inr h'
    · simp only [hle, if_neg, not_false_iff] at hp
      rcases List.mem_cons.mp hp with h | h
      · exact Or.inr h
      · exact Or.inl h

theorem self_mem_insertByScore {α : Type} (l : List (α × Nat)) (x : α) (score : Nat) :
    (x, score) ∈ insertByScore l x score := by
  induction l with
  | nil => simp [insertByScore]
  | cons y rest ih =>
    rw [insertByScore]
    by_cases hle : y.2 ≤ score
    · simp only [hle, if_pos]
      exact List.mem_cons.mpr (Or.inr ih)
    · simp only [hle, if_neg, not_false_iff]
      exact List.mem_cons.mpr (Or.inl rfl)

theorem mem_zAdd {α : Type} [DecidableEq α] (l : List (α × Nat)) (x : α) (score : Nat)
    (p : α × Nat) (hp : p ∈ zAdd l x score) : p ∈ l ∨ p = (x, score) := by
  rcases mem_insertByScore _ _ _ _ hp with h | h
  · exact Or.inl (List.mem_of_mem_filter h)
  · exact Or.inr h

theorem self_mem_zAdd {α : Type} [DecidableEq α] (l : List (α × Nat)) (x : α)
    (score : Nat) : (x, score) ∈ zAdd l x score :=
  self_mem_insertByScore _ x score

theorem mem_getRetryItems {α : Type} (l : List (α × Nat)) (now : Nat) (x : α)
    (hx : x ∈ getRetryItems l now) : ∃ s, (x, s) ∈ l := by
  simp only [getRetryItems, List.mem_map, List.mem_filter] at hx
  rcases hx with ⟨⟨a, s⟩, ⟨ha, _⟩, rfl⟩
  exact ⟨s, ha⟩

theorem processRetryItems_queue_mem {T : Type} [DecidableEq T]
    (rs : ResourceStore T) (now : Nat) (it : QueueItem T)
    (h : it ∈ (processRetryItems rs now).queue) :
    it ∈ rs.queue ∨ it ∈ getRetryItems rs.retrySet now := by
  have key : ∀ (due : List (QueueItem T)) (st : ResourceStore T),
      it ∈ (due.foldl
        (fun st item =>
          { st with retrySet := zRem st.retrySet item, queue := lPush st.queue item })
        st).queue → it ∈ st.queue ∨ it ∈ due := by
    intro due
    induction due with
    | nil => intro st h; exact Or.inl h
    | cons d rest ih =>
      intro st h
      rcases ih _ h with h' | h'
      · rcases List.mem_cons.mp h' with h'' | h''
        · exact Or.inr (List.mem_cons.mpr (Or.inl h''))
        · exact Or.inl h''
      · exact Or.inr (List.mem_cons.mpr (Or.inr h'))
  exact key _ rs h

theorem handleItemFailure_eq {T : Type} (config : QueueConfig) (item : QueueItem T)
    (result : QueueProcessingResult) (now : Nat) :
    handleItemFailure config item result now =
      (failItem item result.error now,
        if item.maxAttempts ≤ item.attempts + 1 then
          if config.deadLetterQueueEnabled then FailureAction.movedToDeadLetter
          else FailureAction.dropped
        else if result.shouldRetry then
          FailureAction.retryScheduled (now + calculateRetryDelay config (item.attempts + 1))
        else FailureAction.dropped) := by
  simp only [handleItemFailure, failItem]
  split_ifs <;> rfl

/-! ### Claim C1. -/

/-- Claim C1 (amended): for every task handled by a Resource Queue, each
failed dispatch attempt increments `attempts` by exactly 1 (and leaves
`maxAttempts` unchanged, so `attempts` never decreases); when
`deadLetterQueueEnabled` holds (the default and the beer-tap setting) the
task is moved to the dead-letter list exactly when `attempts` first
reaches `maxAttempts`, while with the dead-letter queue disabled the
exhausted task is discarded instead of dead-lettered; a retry is only
ever scheduled while `attempts < maxAttempts`, the retry set only holds
such tasks, and the retry sweep — the sole mechanism that re-enqueues —
therefore never returns a task with `attempts ≥ maxAttempts` to the
active queue: exhaustion is terminal. -/
theorem C1_failure_accounting {T : Type} [DecidableEq T] (config : QueueConfig)
    (item : QueueItem T) (result : QueueProcessingResult) (now : Nat) :
    ((handleItemFailure config item result now).1.attempts = item.attempts + 1) ∧
    ((handleItemFailure config item result now).1.maxAttempts = item.maxAttempts) ∧
    (config.deadLetterQueueEnabled = true →
      ((handleItemFailure config item result now).2 = FailureAction.movedToDeadLetter ↔
        item.maxAttempts ≤ item.attempts + 1)) ∧
    (config.deadLetterQueueEnabled = false →
      (handleItemFailure config item result now).2 ≠ FailureAction.movedToDeadLetter) ∧
    (∀ r, (handleItemFailure config item result now).2 = FailureAction.retryScheduled r →
      (handleItemFailure config item result now).1.attempts <
        (handleItemFailure config item result now).1.maxAttempts) ∧
    (∀ rs : ResourceStore T, RetrySetBounded rs →
      RetrySetBounded (applyItemFailure rs (handleItemFailure config item result now).1
        (handleItemFailure config item result now).2)) ∧
    (∀ rs : ResourceStore T, RetrySetBounded rs → ∀ now2 it,
      it ∈ (processRetryItems rs now2).queue →
        it ∈ rs.queue ∨ it.attempts < it.maxAttempts) := by
  rw [handleItemFailure_eq]
  refine ⟨rfl, rfl, ?_, ?_, ?_, ?_, ?_⟩
  · intro hdlq
    by_cases hexh : item.maxAttempts ≤ item.attempts + 1
    · simp [hexh, hdlq]
    · simp only [hexh, if_false]
      split_ifs <;> simp [hexh]
  · intro hdlq
    by_cases hexh : item.maxAttempts ≤ item.attempts + 1
    · simp [hexh, hdlq]
    · simp only [hexh, if_false]
      split_ifs <;> simp
  · intro r hr
    by_cases hexh : item.maxAttempts ≤ item.attempts + 1
    · simp only [hexh, if_true] at hr
      split_ifs at hr
    · simp only [failItem]
      omega
  · intro rs hrs
    by_cases hexh : item.maxAttempts ≤ item.attempts + 1
    · by_cases hdlq : config.deadLetterQueueEnabled = true
      · simp only [hexh, if_true, hdlq, applyItemFailure]
        exact hrs
      · simp only [hexh, if_true, hdlq, if_false, applyItemFailure]
        exact hrs
    · by_cases hretry : result.shouldRetry = true
      · simp only [hexh, if_false, hretry, if_true, applyItemFailure]
        intro p hp
        rcases mem_zAdd _ _ _ _ hp with h | h
        · exact hrs p h
        · subst h
          simp only [failItem]
          omega
      · simp only [hexh, if_false, hretry, applyItemFailure]
        exact hrs
  · intro rs hrs now2 it hit
    rcases processRetryItems_queue_mem rs now2 it hit with h | h
    · exact Or.inl h
    · rcases mem_getRetryItems _ _ _ h with ⟨s, hs⟩
      exact Or.inr (hrs (it, s) hs)

/-- Witness for C1 at the beer-tap configuration and a concrete fresh
task. -/
theorem C1_failure_accounting_witness :
    ((handleItemFailure beerTapQueueConfig freshItem retryableFailure 5).1.attempts =
      freshItem.attempts + 1) ∧
    (beerTapQueueConfig.deadLetterQueueEnabled = true) ∧
    ((handleItemFailure beerTapQueueConfig freshItem retryableFailure 5).2 =
        FailureAction.movedToDeadLetter ↔
      freshItem.maxAttempts ≤ freshItem.attempts + 1) := by
  refine ⟨(C1_failure_accounting beerTapQueueConfig freshItem retryableFailure 5).1,
    rfl, ?_⟩
  exact (C1_failure_accounting beerTapQueueConfig freshItem retryableFailure 5).2.2.1 rfl

/-- Counterexample to C1 as stated: with the dead-letter queue disabled
(a legal Resource Queue configuration), a task whose `attempts` first
reaches `maxAttempts` is NOT moved to the dead-letter list — the failure
handler performs no store write at all. -/
theorem C1_counterexample :
    (handleItemFailure noDlqConfig lastAttemptItem retryableFailure 0).1.attempts =
      (handleItemFailure noDlqConfig lastAttemptItem retryableFailure 0).1.maxAttempts ∧
    (handleItemFailure noDlqConfig lastAttemptItem retryableFailure 0).2 =
      FailureAction.dropped ∧
    (handleItemFailure noDlqConfig lastAttemptItem retryableFailure 0).2 ≠
      FailureAction.movedToDeadLetter := by
  refine ⟨rfl, rfl, by decide⟩

/-! ### Claim C2. -/

/-- Claim C2 (amended): a task popped from the active queue reaches
exactly one of FOUR outcomes: completed on handler success; retried
(placed in the delayed-retry set) on failure when the incremented
`attempts` is below `maxAttempts` and the handler asked for a retry;
dead-lettered on failure when the incremented `attempts` reaches
`maxAttempts` and the dead-letter queue is enabled; and otherwise —
failure with `shouldRetry = false` below `maxAttempts`, or exhaustion
with the dead-letter queue disabled — the task is silently dropped: the
store is left unchanged and the popped task is kept nowhere. -/
theorem C2_popped_item_outcomes {T : Type} [DecidableEq T] (config : QueueConfig)
    (rs : ResourceStore T) (item : QueueItem T) (result : QueueProcessingResult)
    (now : Nat) :
    (result.success = true →
      processPoppedItem config rs item result now = (rs, ProcessOutcome.completed)) ∧
    (result.success = false → item.maxAttempts ≤ item.attempts + 1 →
      config.deadLetterQueueEnabled = true →
      (processPoppedItem config rs item result now).2 = ProcessOutcome.deadLettered ∧
      failItem item result.error now ∈ (processPoppedItem config rs item result now).1.dead) ∧
    (result.success = false → item.maxAttempts ≤ item.attempts + 1 →
      config.deadLetterQueueEnabled = false →
      processPoppedItem config rs item result now = (rs, ProcessOutcome.dropped)) ∧
    (result.success = false → item.attempts + 1 < item.maxAttempts →
      result.shouldRetry = true →
      (processPoppedItem config rs item result now).2 = ProcessOutcome.retried ∧
      (failItem item result.error now,
        now + calculateRetryDelay config (item.attempts + 1)) ∈
        (processPoppedItem config rs item result now).1.retrySet) ∧
    (result.success = false → item.attempts + 1 < item.maxAttempts →
      result.shouldRetry = false →
      processPoppedItem config rs item result now = (rs, ProcessOutcome.dropped)) := by
  refine ⟨?_, ?_, ?_, ?_, ?_⟩
  · intro hs
    simp [processPoppedItem, hs]
  · intro hs hexh hdlq
    simp only [processPoppedItem, hs, Bool.false_eq_true, if_false, handleItemFailure_eq,
      hexh, if_true, hdlq]
    simp [applyItemFailure, lPush]
  · intro hs hexh hdlq
    simp only [processPoppedItem, hs, Bool.false_eq_true, if_false, handleItemFailure_eq,
      hexh, if_true, hdlq]
    simp [applyItemFailure]
  · intro hs hlow hretry
    have hexh : ¬ item.maxAttempts ≤ item.attempts + 1 := by omega
    simp only [processPoppedItem, hs, Bool.false_eq_true, if_false, handleItemFailure_eq,
      hexh, if_false, hretry, if_true]
    exact ⟨trivial, self_mem_zAdd rs.retrySet (failItem item result.error now)
      (now + calculateRetryDelay config (item.attempts + 1))⟩
  · intro hs hlow hretry
    have hexh : ¬ item.maxAttempts ≤ item.attempts + 1 := by omega
    simp only [processPoppedItem, hs, Bool.false_eq_true, if_false, handleItemFailure_eq,
      hexh, if_false, hretry]
    simp [applyItemFailure]

/-- Witness for C2: a fresh task failing retryably at the beer-tap
configuration lands in the retry set with outcome `retried`. -/
theorem C2_popped_item_outcomes_witness :
    (retryableFailure.success = false) ∧ (freshItem.attempts + 1 < freshItem.maxAttempts) ∧
    (retryableFailure.shouldRetry = true) ∧
    ((processPoppedItem beerTapQueueConfig ({} : ResourceStore Unit) freshItem
        retryableFailure 0).2 = ProcessOutcome.retried) := by
  refine ⟨rfl, by decide, rfl, ?_⟩
  exact ((C2_popped_item_outcomes beerTapQueueConfig ({} : ResourceStore Unit) freshItem
    retryableFailure 0).2.2.2.1 rfl (by decide) rfl).1

/-- Counterexample to C2 as stated: a popped task whose handler fails
with `shouldRetry = false` while retry budget remains (attempts 0 of 3,
dead-letter queue enabled) is neither completed nor retried nor
dead-lettered — the store is returned unchanged and the task is dropped. -/
theorem C2_counterexample :
    processPoppedItem beerTapQueueConfig ({} : ResourceStore Unit) freshItem
        nonRetryableFailure 0 =
      (({} : ResourceStore Unit), ProcessOutcome.dropped) ∧
    nonRetryableFailure.success = false := by
  exact ⟨by decide, rfl⟩

/-! ### Claim C10. -/

/-- Claim C10 (amended): the store presents tasks FIFO: `pop` returns the
oldest-pushed task still in the queue (the queue built from a push
sequence pops the first-pushed element, leaving the queue of the
remaining pushes), and `peek(n)` returns the n oldest-enqueued tasks
without removing them — but ordered most-recently-enqueued first, i.e.
oldest-enqueued LAST, not first. -/
theorem C10_fifo_and_peek {α : Type} (pushes : List α) :
    (buildQueue pushes = pushes.reverse) ∧
    (∀ (x : α) (l : List α), rPop (l ++ [x]) = some (x, l)) ∧
    (rPop (buildQueue pushes) = pushes.head?.map (fun x => (x, buildQueue pushes.tail))) ∧
    (∀ n, peekQueue (buildQueue pushes) n = (pushes.take n).reverse) := by
  have hpop : ∀ (x : α) (l : List α), rPop (l ++ [x]) = some (x, l) := by
    intro x l
    simp [rPop, List.getLast?_concat, List.dropLast_concat]
  refine ⟨buildQueue_eq_reverse pushes, hpop, ?_, ?_⟩
  · cases pushes with
    | nil => simp [buildQueue, rPop]
    | cons x xs =>
      rw [buildQueue_eq_reverse, List.reverse_cons, hpop x xs.reverse]
      simp [buildQueue_eq_reverse]
  · intro n
    rw [buildQueue_eq_reverse, peekQueue, List.length_reverse, ← List.reverse_take]

/-- Counterexample to C10 as stated: pushing `taskOne` then `taskTwo`,
`peek(2)` returns `[taskTwo, taskOne]` — the two oldest tasks, but
ordered newest first, not oldest-enqueued first. -/
theorem C10_counterexample :
    peekQueue (buildQueue [taskOne, taskTwo]) 2 = [taskTwo, taskOne] ∧
    taskOne ≠ taskTwo := by
  exact ⟨rfl, by decide⟩

/-- Claim C4: for every attempts value n ≥ 1 the computed retry delay is
min(baseDelay·2^(n-1), maxDelay) for EXPONENTIAL, min(baseDelay·n,
maxDelay) for LINEAR and baseDelay for CONSTANT; with EXPONENTIAL,
baseDelay = 1000 and maxDelay = 30000, attempts 1..6 yield
1000, 2000, 4000, 8000, 16000, 30000. -/
theorem C4_retry_delay (config : QueueConfig) (n : Nat) (hn : 1 ≤ n) :
    (config.retryStrategy = RetryStrategy.exponential →
      calculateRetryDelay config n = min (config.baseDelay * 2 ^ (n - 1)) config.maxDelay) ∧
    (config.retryStrategy = RetryStrategy.linear →
      calculateRetryDelay config n = min (config.baseDelay * n) config.maxDelay) ∧
    (config.retryStrategy = RetryStrategy.constant →
      calculateRetryDelay config n = config.baseDelay) ∧
    ((List.range 6).map (fun k =>
        calculateRetryDelay
          { beerTapQueueConfig with baseDelay := 1000, maxDelay := 30000 } (k + 1)) =
      [1000, 2000, 4000, 8000, 16000, 30000]) := by
  refine ⟨?_, ?_, ?_, by decide⟩ <;>
    intro h <;> simp [calculateRetryDelay, h]

/-- Witness for C4 at n = 3 with the beer-tap configuration. -/
theorem C4_retry_delay_witness :
    (1 ≤ 3) ∧
    ((beerTapQueueConfig.retryStrategy = RetryStrategy.exponential →
      calculateRetryDelay beerTapQueueConfig 3 =
        min (beerTapQueueConfig.baseDelay * 2 ^ (3 - 1)) beerTapQueueConfig.maxDelay) ∧
    (beerTapQueueConfig.retryStrategy = RetryStrategy.linear →
      calculateRetryDelay beerTapQueueConfig 3 =
        min (beerTapQueueConfig.baseDelay * 3) beerTapQueueConfig.maxDelay) ∧
    (beerTapQueueConfig.retryStrategy = RetryStrategy.constant →
      calculateRetryDelay beerTapQueueConfig 3 = beerTapQueueConfig.baseDelay) ∧
    ((List.range 6).map (fun k =>
        calculateRetryDelay
          { beerTapQueueConfig with baseDelay := 1000, maxDelay := 30000 } (k + 1)) =
      [1000, 2000, 4000, 8000, 16000, 30000])) :=
  ⟨by decide, C4_retry_delay beerTapQueueConfig 3 (by decide)⟩

/-! ### Helper lemmas for the deduplication machine. -/

theorem lookup_cons_eq {α β : Type} [DecidableEq α] [BEq α] [LawfulBEq α]
    (k k' : α) (v' : β) (l : List (α × β)) :
    List.lookup k ((k', v') :: l) = if k = k' then some v' else List.lookup k l := by
  by_cases hk : k = k'
  · subst hk
    simp [List.lookup]
  · have hbeq : (k == k') = false := beq_eq_false_iff_ne.mpr hk
    simp [List.lookup, hbeq, hk]

theorem lookup_mem {α β : Type} [DecidableEq α] [BEq α] [LawfulBEq α]
    (l : List (α × β)) (k : α) (v : β)
    (h : List.lookup k l = some v) : (k, v) ∈ l := by
  induction l with
  | nil => simp [List.lookup] at h
  | cons p rest ih =>
    obtain ⟨k', v'⟩ := p
    rw [lookup_cons_eq] at h
    by_cases hk : k = k'
    · rw [if_pos hk] at h
      obtain rfl := hk
      obtain rfl : v' = v := Option.some.inj h
      exact List.mem_cons_self _ _
    · rw [if_neg hk] at h
      exact List.mem_cons_of_mem _ (ih h)

theorem isCreatorPhase_iff (p : DedupPhase) :
    IsCreatorPhase p ↔
      (∃ pid, p = DedupPhase.waitCreator pid) ∨
      (∃ pid v, p = DedupPhase.cleanupCreator pid v) := by
  cases p <;> simp [IsCreatorPhase]

theorem creators_exclusive_pair {s : DedupState} (hs : DedupInv s) (c c' : DedupCaller)
    (hne : c ≠ c') (h1 : IsCreatorPhase (s.phase c)) (h2 : IsCreatorPhase (s.phase c')) :
    False := by
  cases c with
  | A =>
    cases c' with
    | A => exact hne rfl
    | B => exact hs.creators_exclusive ⟨h1, h2⟩
  | B =>
    cases c' with
    | A => exact hs.creators_exclusive ⟨h2, h1⟩
    | B => exact hne rfl

theorem setPhase_phase (s : DedupState) (c : DedupCaller) (X : DedupPhase)
    (c' : DedupCaller) :
    (s.setPhase c X).phase c' = if c' = c then X else s.phase c' := by
  simp [DedupState.setPhase, Function.update_apply]

theorem dedupInv_cache {s : DedupState} (hs : DedupInv s) (x : Option QueueStatus) :
    DedupInv { s with cache := x } :=
  ⟨hs.calls_eq, hs.calls_created, hs.settled_lt, hs.pending_lt, hs.unsettled_pending,
    hs.prov, hs.cleanup_ok, hs.creator_pending, hs.cleanup_pending, hs.waitJ_lt,
    hs.joiner_not_created, hs.early_not_created, hs.creators_exclusive⟩

theorem dedupInv_setPhase {s : DedupState} (hs : DedupInv s) (c : DedupCaller)
    (X : DedupPhase)
    (hprov : ∀ pid r, X = DedupPhase.finished (DedupOutcome.fromCall pid r) →
      s.settled.lookup pid = some r)
    (hcleanL : ∀ pid v, X = DedupPhase.cleanupCreator pid v →
      s.settled.lookup pid = some (UpstreamResult.ok v))
    (hcleanP : ∀ pid v, X = DedupPhase.cleanupCreator pid v → s.pending = some pid)
    (hwaitC : ∀ pid, X = DedupPhase.waitCreator pid → s.pending = some pid)
    (hwaitJlt : ∀ pid, X = DedupPhase.waitJoiner pid → pid < s.nextPid)
    (hwaitJcr : ∀ pid, X = DedupPhase.waitJoiner pid → s.created c = false)
    (hearly : (X = DedupPhase.start ∨ X = DedupPhase.missed) → s.created c = false)
    (hcr : IsCreatorPhase X → IsCreatorPhase (s.phase c)) :
    DedupInv (s.setPhase c X) := by
  refine ⟨hs.calls_eq, hs.calls_created, hs.settled_lt, hs.pending_lt,
    hs.unsettled_pending, ?_, ?_, ?_, ?_, ?_, ?_, ?_, ?_⟩
  · intro c' pid r h
    rw [setPhase_phase] at h
    by_cases hcc : c' = c
    · rw [if_pos hcc] at h
      exact hprov pid r h
    · rw [if_neg hcc] at h
      exact hs.prov c' pid r h
  · intro c' pid v h
    rw [setPhase_phase] at h
    by_cases hcc : c' = c
    · rw [if_pos hcc] at h
      exact hcleanL pid v h
    · rw [if_neg hcc] at h
      exact hs.cleanup_ok c' pid v h
  · intro c' pid h
    rw [setPhase_phase] at h
    by_cases hcc : c' = c
    · rw [if_pos hcc] at h
      exact hwaitC pid h
    · rw [if_neg hcc] at h
      exact hs.creator_pending c' pid h
  · intro c' pid v h
    rw [setPhase_phase] at h
    by_cases hcc : c' = c
    · rw [if_pos hcc] at h
      exact hcleanP pid v h
    · rw [if_neg hcc] at h
      exact hs.cleanup_pending c' pid v h
  · intro c' pid h
    rw [setPhase_phase] at h
    by_cases hcc : c' = c
    · rw [if_pos hcc] at h
      exact hwaitJlt pid h
    · rw [if_neg hcc] at h
      exact hs.waitJ_lt c' pid h
  · intro c' pid h
    rw [setPhase_phase] at h
    by_cases hcc : c' = c
    · rw [if_pos hcc] at h
      obtain rfl := hcc
      exact hwaitJcr pid h
    · rw [if_neg hcc] at h
      exact hs.joiner_not_created c' pid h
  · intro c' h
    rw [setPhase_phase] at h
    by_cases hcc : c' = c
    · rw [if_pos hcc] at h
      obtain rfl := hcc
      exact hearly h
    · rw [if_neg hcc] at h
      exact hs.early_not_created c' h
  · rintro ⟨hA, hB⟩
    rw [setPhase_phase] at hA hB
    cases c with
    | A =>
      rw [if_pos rfl] at hA
      rw [if_neg (by decide)] at hB
      exact hs.creators_exclusive ⟨hcr hA, hB⟩
    | B =>
      rw [if_pos rfl] at hB
      rw [if_neg (by decide)] at hA
      exact hs.creators_exclusive ⟨hA, hcr hB⟩

theorem dedupInv_finishCreator {s : DedupState} (hs : DedupInv s) (c : DedupCaller)
    (pid : Nat) (r : UpstreamResult)
    (hlook : s.settled.lookup pid = some r)
    (hpend : s.pending = some pid)
    (hcrock : IsCreatorPhase (s.phase c)) :
    DedupInv { s.setPhase c (DedupPhase.finished (DedupOutcome.fromCall pid r)) with
        pending := none } := by
  have hphase : ∀ c',
      ({ s.setPhase c (DedupPhase.finished (DedupOutcome.fromCall pid r)) with
          pending := none } : DedupState).phase c' =
        if c' = c then DedupPhase.finished (DedupOutcome.fromCall pid r)
        else s.phase c' := by
    intro c'
    simp [DedupState.setPhase, Function.update_apply]
  refine ⟨hs.calls_eq, hs.calls_created, hs.settled_lt, ?_, ?_, ?_, ?_, ?_, ?_, ?_, ?_,
    ?_, ?_⟩
  · intro p hp
    have hp' : (none : Option Nat) = some p := hp
    exact Option.noConfusion hp'
  · intro p hplt hlookp
    have hlookp' : List.lookup p s.settled = none := hlookp
    have hplt' : p < s.nextPid := hplt
    have hpin := hs.unsettled_pending p hplt' hlookp'
    rw [hpend] at hpin
    obtain rfl : pid = p := Option.some.inj hpin
    rw [hlook] at hlookp'
    exact Option.noConfusion hlookp'
  · intro c' q u h
    rw [hphase] at h
    by_cases hcc : c' = c
    · rw [if_pos hcc] at h
      injection h with h1
      injection h1 with h2 h3
      rw [← h2, ← h3]
      exact hlook
    · rw [if_neg hcc] at h
      exact hs.prov c' q u h
  · intro c' q v h
    rw [hphase] at h
    by_cases hcc : c' = c
    · rw [if_pos hcc] at h
      exact DedupPhase.noConfusion h
    · rw [if_neg hcc] at h
      exact hs.cleanup_ok c' q v h
  · intro c' q h
    rw [hphase] at h
    by_cases hcc : c' = c
    · rw [if_pos hcc] at h
      exact DedupPhase.noConfusion h
    · rw [if_neg hcc] at h
      have hcr' : IsCreatorPhase (s.phase c') := by
        rw [h]
        trivial
      exact ((creators_exclusive_pair hs c' c hcc hcr' hcrock)).elim
  · intro c' q v h
    rw [hphase] at h
    by_cases hcc : c' = c
    · rw [if_pos hcc] at h
      exact DedupPhase.noConfusion h
    · rw [if_neg hcc] at h
      have hcr' : IsCreatorPhase (s.phase c') := by
        rw [h]
        trivial
      exact ((creators_exclusive_pair hs c' c hcc hcr' hcrock)).elim
  · intro c' q h
    rw [hphase] at h
    by_cases hcc : c' = c
    · rw [if_pos hcc] at h
      exact DedupPhase.noConfusion h
    · rw [if_neg hcc] at h
      exact hs.waitJ_lt c' q h
  · intro c' q h
    rw [hphase] at h
    by_cases hcc : c' = c
    · rw [if_pos hcc] at h
      exact DedupPhase.noConfusion h
    · rw [if_neg hcc] at h
      exact hs.joiner_not_created c' q h
  · intro c' h
    rw [hphase] at h
    by_cases hcc : c' = c
    · rw [if_pos hcc] at h
      rcases h with h | h <;> exact DedupPhase.noConfusion h
    · rw [if_neg hcc] at h
      exact hs.early_not_created c' h
  · rintro ⟨hA, hB⟩
    rw [hphase] at hA hB
    cases c with
    | A =>
      rw [if_pos rfl] at hA
      exact hA.elim
    | B =>
      rw [if_pos rfl] at hB
      exact hB.elim

theorem dedupInv_init : DedupInv dedupInit := by
  refine ⟨rfl, rfl, ?_, ?_, ?_, ?_, ?_, ?_, ?_, ?_, ?_, ?_, ?_⟩
  · intro p r h
    simp [dedupInit] at h
  · intro p h
    simp [dedupInit] at h
  · intro p h
    simp [dedupInit] at h
  · intro c pid r h
    exact DedupPhase.noConfusion h
  · intro c pid v h
    exact DedupPhase.noConfusion h
  · intro c pid h
    exact DedupPhase.noConfusion h
  · intro c pid v h
    exact DedupPhase.noConfusion h
  · intro c pid h
    exact DedupPhase.noConfusion h
  · intro c pid h
    exact DedupPhase.noConfusion h
  · intro c _
    rfl
  · rintro ⟨h, -⟩
    exact h.elim

theorem dedupInv_step (s : DedupState) (l : DedupLabel) (hs : DedupInv s) :
    DedupInv (dedupStep s l) := by
  cases l with
  | readCache c =>
    cases hp : s.phase c
    case start =>
      rcases hc : s.cache with _ | v
      · simp only [dedupStep, hp, hc]
        refine dedupInv_setPhase hs c DedupPhase.missed ?_ ?_ ?_ ?_ ?_ ?_ ?_ ?_
        · intro pid r h
          exact DedupPhase.noConfusion h
        · intro pid v h
          exact DedupPhase.noConfusion h
        · intro pid v h
          exact DedupPhase.noConfusion h
        · intro pid h
          exact DedupPhase.noConfusion h
        · intro pid h
          exact DedupPhase.noConfusion h
        · intro pid h
          exact DedupPhase.noConfusion h
        · intro _
          exact hs.early_not_created c (Or.inl hp)
        · intro h
          exact h.elim
      · simp only [dedupStep, hp, hc]
        refine dedupInv_setPhase hs c
          (DedupPhase.finished (DedupOutcome.fromCache v)) ?_ ?_ ?_ ?_ ?_ ?_ ?_ ?_
        · intro pid r h
          injection h with h1
          exact DedupOutcome.noConfusion h1
        · intro pid v h
          exact DedupPhase.noConfusion h
        · intro pid v h
          exact DedupPhase.noConfusion h
        · intro pid h
          exact DedupPhase.noConfusion h
        · intro pid h
          exact DedupPhase.noConfusion h
        · intro pid h
          exact DedupPhase.noConfusion h
        · rintro (h | h) <;> exact DedupPhase.noConfusion h
        · intro h
          exact h.elim
    case missed =>
      simpa only [dedupStep, hp] using hs
    case waitCreator =>
      simpa only [dedupStep, hp] using hs
    case cleanupCreator =>
      simpa only [dedupStep, hp] using hs
    case waitJoiner =>
      simpa only [dedupStep, hp] using hs
    case finished =>
      simpa only [dedupStep, hp] using hs
  | dedupCheck c =>
    cases hp : s.phase c
    case start =>
      simpa only [dedupStep, hp] using hs
    case missed =>
      rcases hpen : s.pending with _ | pid
      · -- creation of a fresh promise
        simp only [dedupStep, hp, hpen]
        have holdc : s.created c = false := hs.early_not_created c (Or.inr hp)
        have hphase : ∀ c',
            ({ (s.setPhase c (DedupPhase.waitCreator s.nextPid)).setCreated c with
                pending := some s.nextPid
                nextPid := s.nextPid + 1
                upstreamCalls := s.upstreamCalls + 1 } : DedupState).phase c' =
              if c' = c then DedupPhase.waitCreator s.nextPid else s.phase c' := by
          intro c'
          simp [DedupState.setPhase, DedupState.setCreated, Function.update_apply]
        have hcreated : ∀ c',
            ({ (s.setPhase c (DedupPhase.waitCreator s.nextPid)).setCreated c with
                pending := some s.nextPid
                nextPid := s.nextPid + 1
                upstreamCalls := s.upstreamCalls + 1 } : DedupState).created c' =
              if c' = c then true else s.created c' := by
          intro c'
          simp [DedupState.setPhase, DedupState.setCreated, Function.update_apply]
        refine ⟨?_, ?_, ?_, ?_, ?_, ?_, ?_, ?_, ?_, ?_, ?_, ?_, ?_⟩
        · show s.upstreamCalls + 1 = s.nextPid + 1
          rw [hs.calls_eq]
        · show s.upstreamCalls + 1 = _
          rw [hcreated, hcreated]
          have hcc := hs.calls_created
          cases c with
          | A =>
            rw [if_pos rfl, if_neg (by decide)]
            rw [holdc] at hcc
            simp only [cond] at hcc ⊢
            omega
          | B =>
            rw [if_neg (by decide), if_pos rfl]
            rw [holdc] at hcc
            simp only [cond] at hcc ⊢
            omega
        · intro p r h
          have h' : (p, r) ∈ s.settled := h
          have := hs.settled_lt p r h'
          show p < s.nextPid + 1
          omega
        · intro p h
          have h' : some s.nextPid = some p := h
          have hpn : p = s.nextPid := (Option.some.inj h').symm
          show p < s.nextPid + 1
          omega
        · intro p hplt hlook
          have hlook' : List.lookup p s.settled = none := hlook
          have hplt' : p < s.nextPid + 1 := hplt
          show some s.nextPid = some p
          by_cases hpn : p = s.nextPid
          · rw [hpn]
          · have hlt : p < s.nextPid := by omega
            have := hs.unsettled_pending p hlt hlook'
            rw [hpen] at this
            exact Option.noConfusion this
        · intro c' pid r h
          rw [hphase] at h
          by_cases hcc : c' = c
          · rw [if_pos hcc] at h
            exact DedupPhase.noConfusion h
          · rw [if_neg hcc] at h
            exact hs.prov c' pid r h
        · intro c' pid v h
          rw [hphase] at h
          by_cases hcc : c' = c
          · rw [if_pos hcc] at h
            exact DedupPhase.noConfusion h
          · rw [if_neg hcc] at h
            have := hs.cleanup_pending c' pid v h
            rw [hpen] at this
            exact Option.noConfusion this
        · intro c' pid h
          rw [hphase] at h
          by_cases hcc : c' = c
          · rw [if_pos hcc] at h
            injection h with h1
            show some s.nextPid = some pid
            rw [h1]
          · rw [if_neg hcc] at h
            have := hs.creator_pending c' pid h
            rw [hpen] at this
            exact Option.noConfusion this
        · intro c' pid v h
          rw [hphase] at h
          by_cases hcc : c' = c
          · rw [if_pos hcc] at h
            exact DedupPhase.noConfusion h
          · rw [if_neg hcc] at h
            have := hs.cleanup_pending c' pid v h
            rw [hpen] at this
            exact Option.noConfusion this
        · intro c' pid h
          rw [hphase] at h
          by_cases hcc : c' = c
          · rw [if_pos hcc] at h
            exact DedupPhase.noConfusion h
          · rw [if_neg hcc] at h
            have := hs.waitJ_lt c' pid h
            show pid < s.nextPid + 1
            omega
        · intro c' pid h
          rw [hphase] at h
          rw [hcreated]
          by_cases hcc : c' = c
          · rw [if_pos hcc] at h
            exact DedupPhase.noConfusion h
          · rw [if_neg hcc] at h
            rw [if_neg hcc]
            exact hs.joiner_not_created c' pid h
        · intro c' h
          rw [hphase] at h
          rw [hcreated]
          by_cases hcc : c' = c
          · rw [if_pos hcc] at h
            rcases h with h | h <;> exact DedupPhase.noConfusion h
          · rw [if_neg hcc] at h
            rw [if_neg hcc]
            exact hs.early_not_created c' h
        · rintro ⟨hA, hB⟩
          rw [hphase] at hA hB
          cases c with
          | A =>
            rw [if_neg (by decide)] at hB
            rcases (isCreatorPhase_iff _).mp hB with ⟨q, hq⟩ | ⟨q, v, hq⟩
            · have := hs.creator_pending DedupCaller.B q hq
              rw [hpen] at this
              exact Option.noConfusion this
            · have := hs.cleanup_pending DedupCaller.B q v hq
              rw [hpen] at this
              exact Option.noConfusion this
          | B =>
            rw [if_neg (by decide)] at hA
            rcases (isCreatorPhase_iff _).mp hA with ⟨q, hq⟩ | ⟨q, v, hq⟩
            · have := hs.creator_pending DedupCaller.A q hq
              rw [hpen] at this
              exact Option.noConfusion this
            · have := hs.cleanup_pending DedupCaller.A q v hq
              rw [hpen] at this
              exact Option.noConfusion this
      · -- joining the registered pending promise
        simp only [dedupStep, hp, hpen]
        refine dedupInv_setPhase hs c (DedupPhase.waitJoiner pid) ?_ ?_ ?_ ?_ ?_ ?_ ?_ ?_
        · intro q r h
          exact DedupPhase.noConfusion h
        · intro q v h
          exact DedupPhase.noConfusion h
        · intro q v h
          exact DedupPhase.noConfusion h
        · intro q h
          exact DedupPhase.noConfusion h
        · intro q h
          injection h with h1
          rw [← h1]
          exact hs.pending_lt pid hpen
        · intro q h
          exact hs.early_not_created c (Or.inr hp)
        · rintro (h | h) <;> exact DedupPhase.noConfusion h
        · intro h
          exact h.elim
    case waitCreator =>
      simpa only [dedupStep, hp] using hs
    case cleanupCreator =>
      simpa only [dedupStep, hp] using hs
    case waitJoiner =>
      simpa only [dedupStep, hp] using hs
    case finished =>
      simpa only [dedupStep, hp] using hs
  | settle pid r =>
    simp only [dedupStep]
    split_ifs with hg
    · obtain ⟨hlt, hnone'⟩ := hg
      have hnone : s.settled.lookup pid = none := Option.isNone_iff_eq_none.mp hnone'
      refine ⟨hs.calls_eq, hs.calls_created, ?_, hs.pending_lt, ?_, ?_, ?_,
        hs.creator_pending, hs.cleanup_pending, hs.waitJ_lt, hs.joiner_not_created,
        hs.early_not_created, hs.creators_exclusive⟩
      · intro p u h
        have h' : (p, u) ∈ (pid, r) :: s.settled := h
        rcases List.mem_cons.mp h' with h'' | h''
        · obtain ⟨rfl, rfl⟩ := Prod.mk.injEq .. ▸ h''
          exact hlt
        · exact hs.settled_lt p u h''
      · intro p hplt hlook
        have hlook' : List.lookup p ((pid, r) :: s.settled) = none := hlook
        rw [lookup_cons_eq] at hlook'
        by_cases hpp : p = pid
        · rw [if_pos hpp] at hlook'
          exact Option.noConfusion hlook'
        · rw [if_neg hpp] at hlook'
          exact hs.unsettled_pending p hplt hlook'
      · intro c q u h
        have h' : s.phase c = DedupPhase.finished (DedupOutcome.fromCall q u) := h
        have hold := hs.prov c q u h'
        show List.lookup q ((pid, r) :: s.settled) = some u
        rw [lookup_cons_eq]
        by_cases hqp : q = pid
        · rw [hqp, hnone] at hold
          exact Option.noConfusion hold
        · rw [if_neg hqp]
          exact hold
      · intro c q v h
        have h' : s.phase c = DedupPhase.cleanupCreator q v := h
        have hold := hs.cleanup_ok c q v h'
        show List.lookup q ((pid, r) :: s.settled) = some (UpstreamResult.ok v)
        rw [lookup_cons_eq]
        by_cases hqp : q = pid
        · rw [hqp, hnone] at hold
          exact Option.noConfusion hold
        · rw [if_neg hqp]
          exact hold
    · exact hs
  | resume c =>
    cases hp : s.phase c
    case start =>
      simpa only [dedupStep, hp] using hs
    case missed =>
      simpa only [dedupStep, hp] using hs
    case waitCreator pid =>
      rcases hlook : s.settled.lookup pid with _ | u
      · simpa only [dedupStep, hp, hlook] using hs
      · cases u with
        | ok v =>
          simp only [dedupStep, hp, hlook]
          refine dedupInv_cache ?_ (some v)
          refine dedupInv_setPhase hs c (DedupPhase.cleanupCreator pid v) ?_ ?_ ?_ ?_ ?_ ?_ ?_ ?_
          · intro q u h
            exact DedupPhase.noConfusion h
          · intro q u h
            injection h with h1 h2
            rw [← h1]
            rw [h2] at hlook
            exact hlook
          · intro q u h
            injection h with h1 h2
            rw [← h1]
            exact hs.creator_pending c pid hp
          · intro q h
            exact DedupPhase.noConfusion h
          · intro q h
            exact DedupPhase.noConfusion h
          · intro q h
            exact DedupPhase.noConfusion h
          · rintro (h | h) <;> exact DedupPhase.noConfusion h
          · intro _
            rw [hp]
            trivial
        | fail msg =>
          simp only [dedupStep, hp, hlook]
          refine dedupInv_finishCreator hs c pid (UpstreamResult.fail msg) hlook
            (hs.creator_pending c pid hp) ?_
          rw [hp]
          trivial
    case cleanupCreator pid v =>
      simp only [dedupStep, hp]
      refine dedupInv_finishCreator hs c pid (UpstreamResult.ok v)
        (hs.cleanup_ok c pid v hp) (hs.cleanup_pending c pid v hp) ?_
      rw [hp]
      trivial
    case waitJoiner pid =>
      rcases hlook : s.settled.lookup pid with _ | u
      · simpa only [dedupStep, hp, hlook] using hs
      · simp only [dedupStep, hp, hlook]
        refine dedupInv_setPhase hs c
          (DedupPhase.finished (DedupOutcome.fromCall pid u)) ?_ ?_ ?_ ?_ ?_ ?_ ?_ ?_
        · intro q w h
          injection h with h1
          injection h1 with h2 h3
          rw [← h2, ← h3]
          exact hlook
        · intro q w h
          exact DedupPhase.noConfusion h
        · intro q w h
          exact DedupPhase.noConfusion h
        · intro q h
          exact DedupPhase.noConfusion h
        · intro q h
          exact DedupPhase.noConfusion h
        · intro q h
          exact DedupPhase.noConfusion h
        · rintro (h | h) <;> exact DedupPhase.noConfusion h
        · intro h
          exact h.elim
    case finished =>
      simpa only [dedupStep, hp] using hs

theorem dedupInv_run (ls : List DedupLabel) (s : DedupState) (hs : DedupInv s) :
    DedupInv (dedupRun s ls) := by
  induction ls generalizing s with
  | nil => exact hs
  | cons l rest ih => exact ih (dedupStep s l) (dedupInv_step s l hs)

theorem dedupInv_reachable (ls : List DedupLabel) : DedupInv (dedupRun dedupInit ls) :=
  dedupInv_run ls dedupInit dedupInv_init

/-! ### Claim C3. -/

/-- Claim C3 (amended): across ALL interleavings, at most one upstream
readiness read per controller is in flight at any instant; whenever the
second caller's dedup-map check finds the first caller's request still
registered (it becomes a joiner), exactly one upstream `checkReady` call
has been made; and whenever only one upstream call was made, both callers
that finished with an upstream-backed result received the settled result
of that single call.  However — this is the amendment — if the first
request settles and its `finally` cleanup removes the pending entry
between the second caller's cache read and its dedup-map check, the
second caller issues a fresh upstream call, so "the second call starts
before the first resolves on an empty cache" does NOT guarantee a single
upstream call (see the counterexample). -/
theorem C3_dedup_single_flight (ls : List DedupLabel) :
    (∀ p q, InFlight (dedupRun dedupInit ls) p → InFlight (dedupRun dedupInit ls) q →
      p = q) ∧
    (∀ pid, (dedupRun dedupInit ls).phase DedupCaller.B = DedupPhase.waitJoiner pid →
      (dedupRun dedupInit ls).upstreamCalls = 1) ∧
    (∀ p q r u, (dedupRun dedupInit ls).upstreamCalls = 1 →
      (dedupRun dedupInit ls).phase DedupCaller.A =
        DedupPhase.finished (DedupOutcome.fromCall p r) →
      (dedupRun dedupInit ls).phase DedupCaller.B =
        DedupPhase.finished (DedupOutcome.fromCall q u) →
      p = q ∧ r = u) := by
  have hinv := dedupInv_reachable ls
  refine ⟨?_, ?_, ?_⟩
  · intro p q hp hq
    obtain ⟨hplt, hpnone⟩ := hp
    obtain ⟨hqlt, hqnone⟩ := hq
    have h1 := hinv.unsettled_pending p hplt hpnone
    have h2 := hinv.unsettled_pending q hqlt hqnone
    rw [h1] at h2
    exact Option.some.inj h2
  · intro pid hB
    have hnc := hinv.joiner_not_created DedupCaller.B pid hB
    have hlt := hinv.waitJ_lt DedupCaller.B pid hB
    have hce := hinv.calls_eq
    have hcc := hinv.calls_created
    rw [hnc] at hcc
    cases hA : (dedupRun dedupInit ls).created DedupCaller.A
    · rw [hA] at hcc
      simp only [cond] at hcc
      omega
    · rw [hA] at hcc
      simp only [cond] at hcc
      omega
  · intro p q r u hcalls hA hB
    have hpA := hinv.prov DedupCaller.A p r hA
    have hpB := hinv.prov DedupCaller.B q u hB
    have hltA := hinv.settled_lt p r (lookup_mem _ _ _ hpA)
    have hltB := hinv.settled_lt q u (lookup_mem _ _ _ hpB)
    have hce := hinv.calls_eq
    have hp0 : p = 0 := by omega
    have hq0 : q = 0 := by omega
    subst hp0
    subst hq0
    refine ⟨rfl, ?_⟩
    rw [hpA] at hpB
    exact Option.some.inj hpB

/-- Witness for C3: in the interleaving where B's dedup check runs while
A's request is registered, B joins A's promise and exactly one upstream
call has been made. -/
theorem C3_dedup_single_flight_witness :
    ((dedupRun dedupInit dedupJoinTrace).phase DedupCaller.B = DedupPhase.waitJoiner 0) ∧
    (dedupRun dedupInit dedupJoinTrace).upstreamCalls = 1 :=
  ⟨by decide, (C3_dedup_single_flight dedupJoinTrace).2.1 0 (by decide)⟩

/-- Counterexample to C3 as stated: in `dedupRaceTrace` caller B starts
(its cache read, step 3) before caller A's request resolves (step 4), the
cache is empty at every read and stays empty, yet TWO upstream calls are
made and the two callers receive the results of two different upstream
calls — because A's `finally` cleanup removed the pending entry before
B's dedup-map check ran. -/
theorem C3_counterexample :
    (dedupRun dedupInit dedupRaceTrace).upstreamCalls = 2 ∧
    (dedupRun dedupInit dedupRaceTrace).phase DedupCaller.A =
      DedupPhase.finished (DedupOutcome.fromCall 0 (UpstreamResult.fail "ECONNRESET")) ∧
    (dedupRun dedupInit dedupRaceTrace).phase DedupCaller.B =
      DedupPhase.finished (DedupOutcome.fromCall 1 (UpstreamResult.fail "ECONNRESET")) ∧
    (dedupRun dedupInit dedupRaceTrace).cache = none := by
  decide

/-! ### Claim C5. -/

/-- Claim C5 (amended): `getBeerTapStatus` returns the cached readiness
value when a cached (unexpired) value is present; when no cached value is
present it returns `READY` as a default — the caller IS told the
resource is ready on a cache miss. -/
theorem C5_status_cache_read (cache : StatusCache) (beerTapId : String) :
    (∀ st, kvGet cache (statusCacheKey beerTapId) = some st →
      getBeerTapStatus cache beerTapId = st) ∧
    (kvGet cache (statusCacheKey beerTapId) = none →
      getBeerTapStatus cache beerTapId = QueueStatus.READY) := by
  constructor
  · intro st h
    simp [getBeerTapStatus, h]
  · intro h
    simp [getBeerTapStatus, h]

/-- Witness for C5 on a cache holding BUSY for tap-1. -/
theorem C5_status_cache_read_witness :
    (kvGet busyCache (statusCacheKey "tap-1") = some QueueStatus.BUSY) ∧
    getBeerTapStatus busyCache "tap-1" = QueueStatus.BUSY :=
  ⟨by decide, (C5_status_cache_read busyCache "tap-1").1 QueueStatus.BUSY (by decide)⟩

/-- Counterexample to C5 as stated: on an empty cache (a miss) the caller
is told the resource is READY, not an unknown/non-ready value. -/
theorem C5_counterexample :
    kvGet ([] : StatusCache) (statusCacheKey "tap-1") = none ∧
    getBeerTapStatus ([] : StatusCache) "tap-1" = QueueStatus.READY :=
  ⟨rfl, rfl⟩

/-! ### Claim C6. -/

theorem kvGet_kvSet_same {β : Type} (cache : List (String × β)) (k : String) (v : β) :
    kvGet (kvSet cache k v) k = some v := by
  simp [kvGet, kvSet, List.lookup]

theorem lookup_filter_ne {β : Type} (l : List (String × β)) (k k' : String)
    (h : k' ≠ k) :
    List.lookup k' (l.filter (fun p => p.1 ≠ k)) = List.lookup k' l := by
  induction l with
  | nil => rfl
  | cons p rest ih =>
    obtain ⟨pk, pv⟩ := p
    simp only [ne_eq, decide_not] at ih
    by_cases hp : pk = k
    · subst hp
      have h1 : (k' == pk) = false := beq_eq_false_iff_ne.mpr h
      simp [List.filter_cons, List.lookup, h1, ih]
    · by_cases hkp : k' = pk
      · subst hkp
        simp [List.filter_cons, hp, List.lookup]
      · have h1 : (k' == pk) = false := beq_eq_false_iff_ne.mpr hkp
        simp [List.filter_cons, hp, List.lookup, h1, ih]

theorem kvGet_kvSet_other {β : Type} (cache : List (String × β)) (k k' : String) (v : β)
    (h : k' ≠ k) : kvGet (kvSet cache k v) k' = kvGet cache k' := by
  have hbeq : (k' == k) = false := beq_eq_false_iff_ne.mpr h
  simp only [kvGet, kvSet, List.lookup, hbeq]
  exact lookup_filter_ne cache k k' h

theorem allSettlesFail_cons (l : DedupLabel) (ls : List DedupLabel)
    (h : AllSettlesFail (l :: ls)) :
    (∀ pid v, l ≠ DedupLabel.settle pid (UpstreamResult.ok v)) ∧ AllSettlesFail ls := by
  cases l with
  | settle pid r =>
    cases r with
    | ok v => exact absurd h (by simp [AllSettlesFail])
    | fail m =>
      refine ⟨?_, h⟩
      intro pid' v' hc
      exact DedupLabel.noConfusion hc (fun _ hr => UpstreamResult.noConfusion hr)
  | readCache c => exact ⟨fun pid v hc => DedupLabel.noConfusion hc, h⟩
  | dedupCheck c => exact ⟨fun pid v hc => DedupLabel.noConfusion hc, h⟩
  | resume c => exact ⟨fun pid v hc => DedupLabel.noConfusion hc, h⟩

theorem failOnly_step (s : DedupState) (l : DedupLabel) (hf : FailOnly s)
    (hl : ∀ pid v, l ≠ DedupLabel.settle pid (UpstreamResult.ok v)) :
    FailOnly (dedupStep s l) := by
  obtain ⟨hcache, hsettled⟩ := hf
  cases l with
  | readCache c =>
    cases hp : s.phase c
    case start =>
      simp only [dedupStep, hp, hcache]
      exact ⟨hcache, hsettled⟩
    all_goals simpa only [dedupStep, hp] using ⟨hcache, hsettled⟩
  | dedupCheck c =>
    cases hp : s.phase c
    case missed =>
      rcases hpen : s.pending with _ | pid
      · simp only [dedupStep, hp, hpen]
        exact ⟨hcache, hsettled⟩
      · simp only [dedupStep, hp, hpen]
        exact ⟨hcache, hsettled⟩
    all_goals simpa only [dedupStep, hp] using ⟨hcache, hsettled⟩
  | settle pid r =>
    simp only [dedupStep]
    split_ifs with hg
    · refine ⟨hcache, ?_⟩
      intro p u hu
      have hu' : (p, u) ∈ (pid, r) :: s.settled := hu
      rcases List.mem_cons.mp hu' with h | h
      · obtain ⟨rfl, rfl⟩ := Prod.mk.injEq .. ▸ h
        cases u with
        | ok v => exact absurd rfl (hl p v)
        | fail m => exact ⟨m, rfl⟩
      · exact hsettled p u h
    · exact ⟨hcache, hsettled⟩
  | resume c =>
    cases hp : s.phase c
    case waitCreator pid =>
      rcases hlook : s.settled.lookup pid with _ | u
      · simpa only [dedupStep, hp, hlook] using ⟨hcache, hsettled⟩
      · cases u with
        | ok v =>
          have := hsettled pid (UpstreamResult.ok v) (lookup_mem _ _ _ hlook)
          obtain ⟨m, hm⟩ := this
          exact UpstreamResult.noConfusion hm
        | fail m =>
          simp only [dedupStep, hp, hlook]
          exact ⟨hcache, hsettled⟩
    case cleanupCreator pid v =>
      simp only [dedupStep, hp]
      exact ⟨hcache, hsettled⟩
    case waitJoiner pid =>
      rcases hlook : s.settled.lookup pid with _ | u
      · simpa only [dedupStep, hp, hlook] using ⟨hcache, hsettled⟩
      · simp only [dedupStep, hp, hlook]
        exact ⟨hcache, hsettled⟩
    all_goals simpa only [dedupStep, hp] using ⟨hcache, hsettled⟩
  
theorem failOnly_run (ls : List DedupLabel) (s : DedupState) (hs : FailOnly s)
    (hls : AllSettlesFail ls) : FailOnly (dedupRun s ls) := by
  induction ls generalizing s with
  | nil => exact hs
  | cons l rest ih =>
    obtain ⟨hl, hrest⟩ := allSettlesFail_cons l rest hls
    exact ih (dedupStep s l) (failOnly_step s l hs hl) hrest

/-- Claim C6 (amended): the deduplicated status read never writes a
failure value into the status cache — under any interleaving in which
every upstream settlement is a failure, the cache stays empty — and
every caller that finishes with an upstream-backed outcome receives
exactly the settled result of that promise (failures included), shared
by all callers awaiting it.  `forcePollBeerTapStatus`, however — this is
the amendment — DOES write a failure value on upstream failure: it
caches `ERROR` for the tap via `updateBeerTapStatus` and then throws;
on success it caches the read status and returns it. -/
theorem C6_failure_not_cached (ls : List DedupLabel) (cache : StatusCache)
    (beerTapId : String) (resp : TBStatusResponse) :
    (AllSettlesFail ls → (dedupRun dedupInit ls).cache = none) ∧
    (∀ c pid r,
      (dedupRun dedupInit ls).phase c = DedupPhase.finished (DedupOutcome.fromCall pid r) →
      List.lookup pid (dedupRun dedupInit ls).settled = some r) ∧
    (resp.success = true →
      forcePollBeerTapStatus cache beerTapId resp =
        (updateBeerTapStatus cache beerTapId resp.status, Except.ok resp.status)) ∧
    (resp.success = false →
      (forcePollBeerTapStatus cache beerTapId resp).2 =
        Except.error ("Failed to read status: " ++ resp.error.getD "Unknown error") ∧
      kvGet (forcePollBeerTapStatus cache beerTapId resp).1 (statusCacheKey beerTapId) =
        some QueueStatus.ERROR) := by
  refine ⟨?_, ?_, ?_, ?_⟩
  · intro hfail
    exact (failOnly_run ls dedupInit ⟨rfl, by intro p r h; simp [dedupInit] at h⟩ hfail).1
  · intro c pid r h
    exact (dedupInv_reachable ls).prov c pid r h
  · intro hsucc
    simp [forcePollBeerTapStatus, hsucc]
  · intro hfail
    constructor
    · simp [forcePollBeerTapStatus, hfail]
    · simp only [forcePollBeerTapStatus, hfail, Bool.false_eq_true, if_false]
      exact kvGet_kvSet_same _ _ _

/-- Witness for C6: the all-failures race trace leaves the cache empty,
and a failed forced poll both throws and caches ERROR. -/
theorem C6_failure_not_cached_witness :
    AllSettlesFail dedupRaceTrace ∧
    (dedupRun dedupInit dedupRaceTrace).cache = none ∧
    (failedPollResponse.success = false) ∧
    kvGet (forcePollBeerTapStatus [] "tap-1" failedPollResponse).1
        (statusCacheKey "tap-1") = some QueueStatus.ERROR :=
  ⟨trivial,
   (C6_failure_not_cached dedupRaceTrace [] "tap-1" failedPollResponse).1 trivial,
   rfl,
   ((C6_failure_not_cached dedupRaceTrace [] "tap-1" failedPollResponse).2.2.2 rfl).2⟩

/-- Counterexample to C6 as stated: a failed upstream read through the
forced (on-demand) refresh writes the failure value `ERROR` into the
status cache before propagating the error. -/
theorem C6_counterexample :
    failedPollResponse.success = false ∧
    kvGet (forcePollBeerTapStatus [] "tap-1" failedPollResponse).1
        (statusCacheKey "tap-1") = some QueueStatus.ERROR ∧
    (forcePollBeerTapStatus [] "tap-1" failedPollResponse).2 =
      Except.error "Failed to read status: Request timeout" := by
  refine ⟨rfl, ?_, ?_⟩ <;> rfl

/-! ### Claim C7. -/

theorem find?_first {α : Type} (p : α → Bool) (pre post : List α) (x : α)
    (hpre : ∀ y ∈ pre, p y = false) (hx : p x = true) :
    (pre ++ x :: post).find? p = some x := by
  induction pre with
  | nil =>
    simp only [List.nil_append]
    exact List.find?_cons_of_pos _ hx
  | cons a rest ih =>
    have ha : ¬ p a := by simp [hpre a (List.mem_cons_self a rest)]
    simp only [List.cons_append]
    rw [List.find?_cons_of_neg _ ha]
    exact ih (fun y hy => hpre y (List.mem_cons_of_mem a hy))

theorem storesEnqueue_lookup (stores : List (String × ResourceStore BeerTapQueueItem))
    (beerTapId : String) (item : QueueItem BeerTapQueueItem)
    (rs : ResourceStore BeerTapQueueItem)
    (h : stores.lookup beerTapId = some rs) :
    (storesEnqueue stores beerTapId item).lookup beerTapId =
      some { rs with queue := lPush rs.queue item } := by
  induction stores with
  | nil => simp [List.lookup] at h
  | cons p rest ih =>
    obtain ⟨k, v⟩ := p
    by_cases hk : beerTapId = k
    · subst hk
      rw [lookup_cons_eq, if_pos rfl] at h
      obtain rfl := Option.some.inj h
      have hmap : storesEnqueue ((beerTapId, v) :: rest) beerTapId item =
          (beerTapId, { v with queue := lPush v.queue item }) ::
            storesEnqueue rest beerTapId item := by
        simp [storesEnqueue]
      rw [hmap, lookup_cons_eq, if_pos rfl]
    · have hk' : ¬ k = beerTapId := fun hh => hk hh.symm
      have h' : List.lookup beerTapId rest = some rs := by
        rw [lookup_cons_eq, if_neg hk] at h
        exact h
      simp only [storesEnqueue, List.map_cons, hk', if_false]
      rw [lookup_cons_eq, if_neg hk]
      simpa [storesEnqueue] using ih h'

/-- Claim C7 (confirmed): the match predicate holds exactly when the
configured receiver identity, memo token and currency equal the event's
and the event amount is at least the configured minimum (a `>=`
comparison, not equality); when no configuration matches, processing the
event returns the state unchanged with no task id (a no-op, no error);
when some configuration matches, the FIRST one in declaration order wins
and exactly its queue receives the newly-built task at its head. -/
theorem C7_webhook_matching (st : IntegrationState) (transaction : Payment)
    (newId : String) :
    (∀ config, matchesConfig config transaction = true ↔
      (config.transactionReceiverEns = transaction.receiverEnsPrimaryName ∧
       config.transactionMemo = transaction.memo ∧
       config.transactionCurrency = transaction.invoiceCurrency ∧
       config.transactionAmount ≤ transaction.invoiceAmount)) ∧
    ((∀ config ∈ st.configs, matchesConfig config transaction = false) →
      processWebhookTransaction st transaction newId = (st, none)) ∧
    (∀ pre config post rs, st.configs = pre ++ config :: post →
      (∀ c ∈ pre, matchesConfig c transaction = false) →
      matchesConfig config transaction = true →
      st.stores.lookup config.id = some rs →
      (processWebhookTransaction st transaction newId).2 = some newId ∧
      (processWebhookTransaction st transaction newId).1.stores.lookup config.id =
        some { rs with queue :=
          (lPush rs.queue (newQueueItem newId config.id (webhookTask transaction config))) } ∧
      (processWebhookTransaction st transaction newId).1.configs = st.configs ∧
      (processWebhookTransaction st transaction newId).1.completedMarkers =
        st.completedMarkers) := by
  refine ⟨?_, ?_, ?_⟩
  · intro config
    simp [matchesConfig, and_assoc]
  · intro hnone
    have hfind : st.configs.find? (fun config => matchesConfig config transaction) = none :=
      List.find?_eq_none.mpr (fun x hx => by simp [hnone x hx])
    simp [processWebhookTransaction, hfind]
  · intro pre config post rs hcfg hpre hmatch hrs
    have hfind : st.configs.find? (fun c => matchesConfig c transaction) = some config := by
      rw [hcfg]
      exact find?_first _ pre post config hpre hmatch
    refine ⟨?_, ?_, ?_, ?_⟩
    · simp [processWebhookTransaction, hfind]
    · simp only [processWebhookTransaction, hfind]
      exact storesEnqueue_lookup st.stores config.id _ rs hrs
    · simp [processWebhookTransaction, hfind]
    · simp [processWebhookTransaction, hfind]

/-- Witness for C7: the §8 scenario payment (25 BRL, memo Chopp-tap1)
matches the configured tap (minimum 20 BRL) and is enqueued. -/
theorem C7_webhook_matching_witness :
    (initialTapState.configs = [] ++ choppTapConfig :: []) ∧
    matchesConfig choppTapConfig choppPayment = true ∧
    initialTapState.stores.lookup choppTapConfig.id =
      some ({} : ResourceStore BeerTapQueueItem) ∧
    (processWebhookTransaction initialTapState choppPayment "item-1").2 =
      some "item-1" := by
  refine ⟨rfl, by decide, by decide, ?_⟩
  exact ((C7_webhook_matching initialTapState choppPayment "item-1").2.2
    [] choppTapConfig [] ({} : ResourceStore BeerTapQueueItem) rfl
    (fun c hc => absurd hc (List.not_mem_nil c)) (by decide) (by decide)).1

/-! ### Claim C8. -/

theorem peekQueue_full {α : Type} (l : List α) : peekQueue l l.length = l := by
  simp [peekQueue]

theorem findTxIdx_none (items : List (QueueItem BeerTapQueueItem)) (txHash : String)
    (h : ∀ it ∈ items, it.data.transactionHash ≠ txHash) :
    findTxIdx items txHash = none := by
  induction items with
  | nil => rfl
  | cons it rest ih =>
    have hit := h it (List.mem_cons_self it rest)
    rw [findTxIdx, if_neg hit, ih (fun x hx => h x (List.mem_cons_of_mem it hx))]
    rfl

theorem findTxIdx_isSome (items : List (QueueItem BeerTapQueueItem)) (txHash : String)
    (h : ∃ it ∈ items, it.data.transactionHash = txHash) :
    (findTxIdx items txHash).isSome = true := by
  induction items with
  | nil =>
    obtain ⟨it, hit, -⟩ := h
    exact absurd hit (List.not_mem_nil it)
  | cons it rest ih =>
    rw [findTxIdx]
    by_cases hh : it.data.transactionHash = txHash
    · rw [if_pos hh]
      rfl
    · rw [if_neg hh]
      obtain ⟨x, hx, hxh⟩ := h
      rcases List.mem_cons.mp hx with rfl | hx'
      · exact absurd hxh hh
      · have := ih ⟨x, hx', hxh⟩
        cases hidx : findTxIdx rest txHash with
        | none => rw [hidx] at this; exact absurd this (by simp)
        | some i => rfl

theorem findInStores_some_status
    (stores : List (String × ResourceStore BeerTapQueueItem)) (txHash : String)
    (now : Nat) (r : TxStatusResult) (h : findInStores stores txHash now = some r) :
    r.status = TxStatusKind.queued ∨ r.status = TxStatusKind.failed := by
  induction stores with
  | nil => exact Option.noConfusion h
  | cons p rest ih =>
    obtain ⟨beerTapId, rs⟩ := p
    rw [findInStores] at h
    cases hidx : findTxIdx (peekQueue rs.queue rs.queue.length) txHash with
    | some i =>
      rw [hidx] at h
      obtain rfl := Option.some.inj h
      exact Or.inl rfl
    | none =>
      rw [hidx] at h
      by_cases hretry :
          (getRetryItems rs.retrySet now).any (fun it => it.data.transactionHash == txHash)
      · rw [if_pos hretry] at h
        obtain rfl := Option.some.inj h
        exact Or.inl rfl
      · rw [if_neg hretry] at h
        by_cases hdead :
            (peekQueue rs.dead 100).any (fun it => it.data.transactionHash == txHash)
        · rw [if_pos hdead] at h
          obtain rfl := Option.some.inj h
          exact Or.inr rfl
        · rw [if_neg hdead] at h
          exact ih h

theorem findInStores_none
    (stores : List (String × ResourceStore BeerTapQueueItem)) (txHash : String)
    (now : Nat)
    (h : ∀ p ∈ stores,
      (∀ it ∈ p.2.queue, it.data.transactionHash ≠ txHash) ∧
      (∀ it ∈ getRetryItems p.2.retrySet now, it.data.transactionHash ≠ txHash) ∧
      (∀ it ∈ peekQueue p.2.dead 100, it.data.transactionHash ≠ txHash)) :
    findInStores stores txHash now = none := by
  induction stores with
  | nil => rfl
  | cons p rest ih =>
    obtain ⟨beerTapId, rs⟩ := p
    obtain ⟨hq, hr, hd⟩ := h (beerTapId, rs) (List.mem_cons_self _ _)
    rw [findInStores]
    rw [findTxIdx_none _ _ (by rw [peekQueue_full]; exact hq)]
    rw [if_neg (by
      simp only [List.any_eq_true, not_exists, not_and]
      intro it hit
      simp [hr it hit]), if_neg (by
      simp only [List.any_eq_true, not_exists, not_and]
      intro it hit
      simp [hd it hit])]
    exact ih (fun q hq' => h q (List.mem_cons_of_mem _ hq'))

/-- Claim C8 (amended): `findStatus(correlationId)` inspects a
`completed:` marker key (which NO code path in the repository ever
writes), each resource's active queue and its DUE delayed-retry entries
(`retryAt ≤ now`) — both reported `queued` — and the oldest 100
dead-letter entries (`failed`); anything else is `not_found`.  It NEVER
returns `processing`; `completed` is returned exactly when a marker key
is present; and since neither the dispatch path nor the webhook path
writes a marker, a task dispatched to success reports `not_found`, not
`completed` (the §8 transition is not_found → queued → not_found). -/
theorem C8_find_status (st : IntegrationState) (txHash : String) (now : Nat) :
    ((findTransactionStatus st txHash now).status ≠ TxStatusKind.processing) ∧
    (txHash ∈ st.completedMarkers →
      findTransactionStatus st txHash now = { status := TxStatusKind.completed }) ∧
    ((findTransactionStatus st txHash now).status = TxStatusKind.completed →
      txHash ∈ st.completedMarkers) ∧
    (txHash ∉ st.completedMarkers →
      (∀ p ∈ st.stores,
        (∀ it ∈ p.2.queue, it.data.transactionHash ≠ txHash) ∧
        (∀ it ∈ getRetryItems p.2.retrySet now, it.data.transactionHash ≠ txHash) ∧
        (∀ it ∈ peekQueue p.2.dead 100, it.data.transactionHash ≠ txHash)) →
      findTransactionStatus st txHash now = { status := TxStatusKind.not_found }) ∧
    (∀ tapId rs, txHash ∉ st.completedMarkers → st.stores = [(tapId, rs)] →
      (∃ it ∈ rs.queue, it.data.transactionHash = txHash) →
      (findTransactionStatus st txHash now).status = TxStatusKind.queued) ∧
    (∀ tapId rs, txHash ∉ st.completedMarkers → st.stores = [(tapId, rs)] →
      (∀ it ∈ rs.queue, it.data.transactionHash ≠ txHash) →
      (∃ it ∈ getRetryItems rs.retrySet now, it.data.transactionHash = txHash) →
      findTransactionStatus st txHash now =
        { status := TxStatusKind.queued, beerTapId := some tapId }) ∧
    (∀ tapId rs, txHash ∉ st.completedMarkers → st.stores = [(tapId, rs)] →
      (∀ it ∈ rs.queue, it.data.transactionHash ≠ txHash) →
      (∀ it ∈ getRetryItems rs.retrySet now, it.data.transactionHash ≠ txHash) →
      (∃ it ∈ peekQueue rs.dead 100, it.data.transactionHash = txHash) →
      findTransactionStatus st txHash now =
        { status := TxStatusKind.failed, beerTapId := some tapId }) ∧
    (∀ tapId, (dispatchSuccess st tapId).completedMarkers = st.completedMarkers) ∧
    (∀ transaction newId,
      (processWebhookTransaction st transaction newId).1.completedMarkers =
        st.completedMarkers) := by
  refine ⟨?_, ?_, ?_, ?_, ?_, ?_, ?_, ?_, ?_⟩
  · unfold findTransactionStatus
    by_cases hc : txHash ∈ st.completedMarkers
    · rw [if_pos hc]
      simp
    · rw [if_neg hc]
      cases hfind : findInStores st.stores txHash now with
      | none => simp [hfind]
      | some r =>
        rcases findInStores_some_status _ _ _ r hfind with h | h <;>
          simp [hfind, h]
  · intro hc
    unfold findTransactionStatus
    rw [if_pos hc]
  · intro hcompl
    by_cases hc : txHash ∈ st.completedMarkers
    · exact hc
    · exfalso
      unfold findTransactionStatus at hcompl
      rw [if_neg hc] at hcompl
      cases hfind : findInStores st.stores txHash now with
      | none =>
        rw [hfind] at hcompl
        have : TxStatusKind.not_found = TxStatusKind.completed := hcompl
        exact TxStatusKind.noConfusion this
      | some r =>
        rw [hfind] at hcompl
        have hr : r.status = TxStatusKind.completed := hcompl
        rcases findInStores_some_status _ _ _ r hfind with h | h <;>
          (rw [hr] at h; exact TxStatusKind.noConfusion h)
  · intro hc hall
    unfold findTransactionStatus
    rw [if_neg hc, findInStores_none _ _ _ hall]
  · intro tapId rs hc hstores hex
    unfold findTransactionStatus
    rw [if_neg hc, hstores]
    have hsome := findTxIdx_isSome rs.queue txHash hex
    cases hidx : findTxIdx rs.queue txHash with
    | none =>
      rw [hidx] at hsome
      exact absurd hsome (by simp)
    | some i =>
      have hstep : findInStores [(tapId, rs)] txHash now =
          some { status := TxStatusKind.queued, queuePosition := some (i + 1),
                 beerTapId := some tapId } := by
        rw [findInStores, peekQueue_full, hidx]
      rw [hstep]
  · intro tapId rs hc hstores hqnone hex
    unfold findTransactionStatus
    rw [if_neg hc, hstores]
    have hany : (getRetryItems rs.retrySet now).any
        (fun it => it.data.transactionHash == txHash) = true := by
      rcases hex with ⟨it, hit, hh⟩
      exact List.any_eq_true.mpr ⟨it, hit, by simp [hh]⟩
    have hstep : findInStores [(tapId, rs)] txHash now =
        some { status := TxStatusKind.queued, queuePosition := none,
               beerTapId := some tapId } := by
      rw [findInStores, peekQueue_full, findTxIdx_none rs.queue txHash hqnone]
      simp [hany]
    rw [hstep]
  · intro tapId rs hc hstores hqnone hrnone hex
    unfold findTransactionStatus
    rw [if_neg hc, hstores]
    have hanyr : (getRetryItems rs.retrySet now).any
        (fun it => it.data.transactionHash == txHash) = false := by
      simp only [List.any_eq_false]
      intro it hit
      simp [hrnone it hit]
    have hanyd : (peekQueue rs.dead 100).any
        (fun it => it.data.transactionHash == txHash) = true := by
      rcases hex with ⟨it, hit, hh⟩
      exact List.any_eq_true.mpr ⟨it, hit, by simp [hh]⟩
    have hstep : findInStores [(tapId, rs)] txHash now =
        some { status := TxStatusKind.failed, queuePosition := none,
               beerTapId := some tapId } := by
      rw [findInStores, peekQueue_full, findTxIdx_none rs.queue txHash hqnone]
      simp [hanyr, hanyd]
    rw [hstep]
  · intro tapId
    unfold dispatchSuccess
    cases hl : st.stores.lookup tapId with
    | none => rfl
    | some rs =>
      cases hpop : rPop rs.queue with
      | none => simp [hl, hpop]
      | some pr =>
        obtain ⟨item, rest⟩ := pr
        simp [hl, hpop]
  · intro transaction newId
    unfold processWebhookTransaction
    cases hfind : st.configs.find? (fun config => matchesConfig config transaction) with
    | none => rfl
    | some config => simp [hfind]

/-- Witness for C8: after the §8 scenario payment is enqueued, the
status of `tx1` is `queued`. -/
theorem C8_find_status_witness :
    ("tx1" ∉ afterEnqueueState.completedMarkers) ∧
    (findTransactionStatus afterEnqueueState "tx1" 0).status = TxStatusKind.queued :=
  ⟨by decide,
   (C8_find_status afterEnqueueState "tx1" 0).2.2.2.2.1 "tap1"
     { queue := [newQueueItem "item-1" "tap1" (webhookTask choppPayment choppTapConfig)] }
     (by decide) (by decide)
     ⟨newQueueItem "item-1" "tap1" (webhookTask choppPayment choppTapConfig),
       by decide, by decide⟩⟩

/-- Counterexample to C8 as stated: running the §8 scenario — enqueue the
matched payment, then dispatch it to success — the observed status
transitions are not_found → queued → not_found: after the successful
dispatch `findStatus` reports `not_found`, NOT `completed` (no code path
writes the `completed:` marker the lookup checks), and no `processing`
state is ever observable. -/
theorem C8_counterexample :
    findTransactionStatus initialTapState "tx1" 0 =
      { status := TxStatusKind.not_found } ∧
    findTransactionStatus afterEnqueueState "tx1" 0 =
      { status := TxStatusKind.queued, queuePosition := some 1,
        beerTapId := some "tap1" } ∧
    findTransactionStatus (dispatchSuccess afterEnqueueState "tap1") "tx1" 0 =
      { status := TxStatusKind.not_found } := by
  exact ⟨by decide, by decide, by decide⟩

/-! ### Claim C9. -/

theorem arraysEqual_iff_perm (l1 l2 : List String) :
    arraysEqual l1 l2 = true ↔ List.Perm l1 l2 := by
  unfold arraysEqual
  by_cases hlen : l1.length ≠ l2.length
  · rw [if_pos hlen]
    constructor
    · intro h
      exact Bool.noConfusion h
    · intro h
      exact absurd h.length_eq hlen
  · rw [if_neg hlen]
    rw [beq_iff_eq]
    constructor
    · intro hsort
      have p1 := List.perm_insertionSort (fun a b : String => a ≤ b) l1
      have p2 := List.perm_insertionSort (fun a b : String => a ≤ b) l2
      exact p1.symm.trans (hsort ▸ p2)
    · intro hperm
      have hs1 := List.sorted_insertionSort (fun a b : String => a ≤ b) l1
      have hs2 := List.sorted_insertionSort (fun a b : String => a ≤ b) l2
      have hp : List.Perm (List.insertionSort (fun a b : String => a ≤ b) l1)
          (List.insertionSort (fun a b : String => a ≤ b) l2) :=
        (List.perm_insertionSort _ l1).trans
          (hperm.trans (List.perm_insertionSort _ l2).symm)
      exact List.eq_of_perm_of_sorted hp hs1 hs2

theorem areIdentityConfigsCompatible_refl (c : Option IdentityVerificationConfig) :
    areIdentityConfigsCompatible c c = true := by
  cases h : optEnabled c with
  | false => simp [areIdentityConfigsCompatible, h]
  | true =>
    cases c with
    | none => simp [optEnabled] at h
    | some d =>
      have harr : ∀ l : List String, arraysEqual l l = true := fun l =>
        (arraysEqual_iff_perm l l).mpr (List.Perm.refl l)
      simp [areIdentityConfigsCompatible, h, harr]

theorem lookup_foldl_write (group : List BeerTap) (cache : VerificationCache)
    (walletAddress : String) (res : VerificationResult) (k : String)
    (h : kvGet cache k = some res ∨
      ∃ t ∈ group, getVerificationCacheKey walletAddress t.id = k) :
    kvGet (group.foldl
      (fun kv tap => cacheVerificationResult kv walletAddress tap.id res) cache) k =
      some res := by
  induction group generalizing cache with
  | nil =>
    rcases h with h | ⟨t, ht, -⟩
    · exact h
    · exact absurd ht (List.not_mem_nil t)
  | cons g rest ih =>
    simp only [List.foldl_cons]
    apply ih
    by_cases hk : getVerificationCacheKey walletAddress g.id = k
    · left
      rw [← hk]
      exact kvGet_kvSet_same _ _ _
    · rcases h with h | ⟨t, ht, hkey⟩
      · left
        rw [cacheVerificationResult,
          kvGet_kvSet_other _ _ _ _ (fun hh => hk hh.symm)]
        exact h
      · rcases List.mem_cons.mp ht with rfl | ht'
        · exact absurd hkey hk
        · right
          exact ⟨t, ht', hkey⟩

theorem compat_iff (c1 c2 : Option IdentityVerificationConfig) :
    areIdentityConfigsCompatible c1 c2 = true ↔
      ((optEnabled c1 = false ∧ optEnabled c2 = false) ∨
       (∃ d1 d2, c1 = some d1 ∧ c2 = some d2 ∧ d1.enabled = true ∧ d2.enabled = true ∧
         d1.minimumAge = d2.minimumAge ∧ d1.ofacCheck = d2.ofacCheck ∧
         d1.requireNationality = d2.requireNationality ∧
         List.Perm d1.excludedCountries d2.excludedCountries ∧
         List.Perm d1.allowedNationalities d2.allowedNationalities ∧
         d1.sessionTimeout = d2.sessionTimeout)) := by
  cases h1 : optEnabled c1 with
  | false =>
    cases h2 : optEnabled c2 with
    | false =>
      refine iff_of_true (by simp [areIdentityConfigsCompatible, h1, h2]) (Or.inl ⟨rfl, rfl⟩)
    | true =>
      refine iff_of_false (by simp [areIdentityConfigsCompatible, h1, h2]) ?_
      rintro (⟨-, hf⟩ | ⟨d1, d2, he1, he2, hd1, hd2, -⟩)
      · exact Bool.noConfusion hf
      · subst he1
        rw [show optEnabled (some d1) = d1.enabled from rfl, hd1] at h1
        exact Bool.noConfusion h1
  | true =>
    cases h2 : optEnabled c2 with
    | false =>
      refine iff_of_false (by simp [areIdentityConfigsCompatible, h1, h2]) ?_
      rintro (⟨hf, -⟩ | ⟨d1, d2, he1, he2, hd1, hd2, -⟩)
      · exact Bool.noConfusion hf
      · subst he2
        rw [show optEnabled (some d2) = d2.enabled from rfl, hd2] at h2
        exact Bool.noConfusion h2
    | true =>
      cases c1 with
      | none => simp [optEnabled] at h1
      | some d1 =>
        cases c2 with
        | none => simp [optEnabled] at h2
        | some d2 =>
          have hd1 : d1.enabled = true := h1
          have hd2 : d2.enabled = true := h2
          have hL : areIdentityConfigsCompatible (some d1) (some d2) =
              ((d1.minimumAge == d2.minimumAge) &&
               (d1.ofacCheck == d2.ofacCheck) &&
               (d1.requireNationality == d2.requireNationality) &&
               arraysEqual d1.excludedCountries d2.excludedCountries &&
               arraysEqual d1.allowedNationalities d2.allowedNationalities &&
               (d1.sessionTimeout == d2.sessionTimeout)) := by
            simp [areIdentityConfigsCompatible, h1, h2]
          rw [hL]
          constructor
          · intro hb
            simp only [Bool.and_eq_true, beq_iff_eq] at hb
            obtain ⟨⟨⟨⟨⟨hm, ho⟩, hr⟩, he⟩, ha⟩, hs⟩ := hb
            exact Or.inr ⟨d1, d2, rfl, rfl, hd1, hd2, hm, ho, hr,
              (arraysEqual_iff_perm _ _).mp he, (arraysEqual_iff_perm _ _).mp ha, hs⟩
          · rintro (⟨hf, -⟩ | ⟨e1, e2, he1, he2, -, -, hm, ho, hr, hp1, hp2, hs⟩)
            · exact Bool.noConfusion hf
            · obtain rfl := Option.some.inj he1
              obtain rfl := Option.some.inj he2
              simp only [Bool.and_eq_true, beq_iff_eq]
              exact ⟨⟨⟨⟨⟨hm, ho⟩, hr⟩, (arraysEqual_iff_perm _ _).mpr hp1⟩,
                (arraysEqual_iff_perm _ _).mpr hp2⟩, hs⟩

/-- Claim C9 (amended): two verification policies are equivalent exactly
when BOTH are disabled (regardless of the remaining fields — the
amendment) or both are enabled and every field matches, with the
excluded-countries and allowed-nationalities lists compared
order-independently (equal as multisets, via sorting); the equivalence
group of a configured resource includes the resource itself; a
successful verification writes the cache entry for every member of the
resource's equivalence group; and a status lookup checks the queried
resource id first, then falls back to the first compatible tap with a
cached entry, reporting verified exactly when the chosen entry is
unexpired. -/
theorem C9_policy_equivalence (beerTaps : List BeerTap) (cache : VerificationCache)
    (walletAddress tapId : String) (now : Nat) :
    (∀ c1 c2, areIdentityConfigsCompatible c1 c2 = true ↔
      ((optEnabled c1 = false ∧ optEnabled c2 = false) ∨
       (∃ d1 d2, c1 = some d1 ∧ c2 = some d2 ∧ d1.enabled = true ∧ d2.enabled = true ∧
         d1.minimumAge = d2.minimumAge ∧ d1.ofacCheck = d2.ofacCheck ∧
         d1.requireNationality = d2.requireNationality ∧
         List.Perm d1.excludedCountries d2.excludedCountries ∧
         List.Perm d1.allowedNationalities d2.allowedNationalities ∧
         d1.sessionTimeout = d2.sessionTimeout))) ∧
    (∀ t, beerTaps.find? (fun tap => tap.id == tapId) = some t →
      t ∈ getVerificationGroup beerTaps tapId) ∧
    (∀ result t, t ∈ getVerificationGroup beerTaps tapId →
      kvGet (cacheVerificationResultForCompatibleTaps beerTaps cache walletAddress
          tapId result)
        (getVerificationCacheKey walletAddress t.id) = some result) ∧
    (∀ r, getCachedVerificationResult cache walletAddress tapId = some r →
      ¬ r.expiresAt < now →
      getVerificationStatus beerTaps cache walletAddress tapId now =
        (cache, true, some r)) ∧
    (∀ r, getCachedVerificationResult cache walletAddress tapId = none →
      (findCompatibleTaps beerTaps tapId).findSome?
        (fun tap => getCachedVerificationResult cache walletAddress tap.id) = some r →
      ¬ r.expiresAt < now →
      getVerificationStatus beerTaps cache walletAddress tapId now =
        (cache, true, some r)) ∧
    (getCachedVerificationResult cache walletAddress tapId = none →
      (findCompatibleTaps beerTaps tapId).findSome?
        (fun tap => getCachedVerificationResult cache walletAddress tap.id) = none →
      getVerificationStatus beerTaps cache walletAddress tapId now =
        (cache, false, none)) := by
  refine ⟨compat_iff, ?_, ?_, ?_, ?_, ?_⟩
  · intro t ht
    unfold getVerificationGroup
    rw [ht]
    exact List.mem_filter.mpr
      ⟨List.mem_of_find?_eq_some ht, areIdentityConfigsCompatible_refl _⟩
  · intro result t hmem
    unfold cacheVerificationResultForCompatibleTaps
    exact lookup_foldl_write _ cache walletAddress result _
      (Or.inr ⟨t, hmem, rfl⟩)
  · intro r hr hne
    unfold getVerificationStatus
    rw [hr]
    simp only []
    rw [if_neg hne]
  · intro r hr hfind hne
    unfold getVerificationStatus
    rw [hr, hfind]
    simp only []
    rw [if_neg hne]
  · intro hr hfind
    unfold getVerificationStatus
    rw [hr, hfind]

/-- Witness for C9: with two taps sharing a byte-identical enabled
policy, tapB is in tapA's verification group and a verification for
(subject, tapA) writes tapB's cache entry. -/
theorem C9_policy_equivalence_witness :
    ({ id := "tapB", identityVerification := some enabledPolicy } : BeerTap) ∈
      getVerificationGroup twinTaps "tapA" ∧
    kvGet (cacheVerificationResultForCompatibleTaps twinTaps [] "0xSubject" "tapA"
        twinResult)
      (getVerificationCacheKey "0xSubject" "tapB") = some twinResult := by
  refine ⟨by decide, ?_⟩
  exact (C9_policy_equivalence twinTaps [] "0xSubject" "tapA" 0).2.2.1 twinResult
    { id := "tapB", identityVerification := some enabledPolicy } (by decide)

/-- Counterexample to C9 as stated: two DISABLED policies whose fields
differ (minimum age 18 vs 21, session timeout 1800 vs 900) are
nevertheless equivalent — `areIdentityConfigsCompatible` returns true
whenever both policies are disabled, without comparing any field. -/
theorem C9_counterexample :
    areIdentityConfigsCompatible disabledPolicyA disabledPolicyB = true ∧
    disabledPolicyA.map (fun c => c.minimumAge) = some 18 ∧
    disabledPolicyB.map (fun c => c.minimumAge) = some 21 ∧
    disabledPolicyA.map (fun c => c.sessionTimeout) = some 1800 ∧
    disabledPolicyB.map (fun c => c.sessionTimeout) = some 900 :=
  ⟨rfl, rfl, rfl, rfl, rfl⟩
